import Mathlib

/-!
# Service registry and discovery cache

A shallow embedding of the `registry` package (`registry/registration.go`,
`registry/client.go`, `registry/server.go`).

* Go slices are Lean lists; a `nil` slice and an empty slice are both `[]`.
* The map `providers.services` is a function from service names to optional lists.
* HTTP pushes (`sendPatch`) are recorded in a log of attempted pushes; the network is
  an oracle `send` telling for each push whether it returns an error.
* The result of `saveToFile` is an input of `add` (`none` is success).
* The snapshot `./registry.json` is a text; what `encoding/json` writes and reads for a
  `[]Registration` is modelled on lists of characters.
* The table mutex is tracked only as far as it can stay held after a call returns:
  `writeLocked` is true when the exclusive lock is held and nobody will release it.
  Outside a round of the failure detector every operation runs to its end before the
  next one starts; inside a round the goroutines of the rows are interleaved step by
  step (`heartbeatRound`).
-/

namespace Registry

/-! ## registration.go -/

abbrev ServiceName := String

structure Registration where
  ServiceName : String
  ServiceURL : String
  RequiredServices : List String
  ServiceUpdateURL : String
  HeartbeatURL : String
deriving DecidableEq, Repr

structure patchEntry where
  Name : ServiceName
  URL : String
deriving DecidableEq, Repr

structure patch where
  Added : List patchEntry
  Removed : List patchEntry
deriving DecidableEq, Repr

/-! ## client.go: the provider cache -/

/-- The cache `providers`: `services name = none` when the map has no key `name`. -/
structure providers where
  services : ServiceName → Option (List String)

/-- The map assignment `p.services[name] = urls`. -/
def providers.set (p : providers) (name : ServiceName) (urls : List String) : providers :=
  { services := fun n => if n = name then some urls else p.services n }

/-- The variable `prov`: a cache with no key. -/
def prov : providers := { services := fun _ => none }

/-- One iteration of the first loop of `Update`: create the key when it is missing,
then append the URL. -/
def addEntry (p : providers) (entry : patchEntry) : providers :=
  let p1 := match p.services entry.Name with
    | none => p.set entry.Name []
    | some _ => p
  p1.set entry.Name ((p1.services entry.Name).getD [] ++ [entry.URL])

/-- The loop `for i, url := range providerURLs` of `Update`, from index `i` on, with
`fuel` iterations left. `arr` is the content of the backing array of `providerURLs`
(its length never changes), `cur` is the current value of `p.services[entry.Name]`.
On a match `append(providerURLs[:i], providerURLs[i+1:]...)` moves the elements after
`i` one place down inside the same backing array, whose last cell keeps its value, and
the loop goes on (there is no `break`). -/
def removeScan (url : String) : Nat → Nat → List String → List String → List String
  | 0, _, _, cur => cur
  | fuel + 1, i, arr, cur =>
    if arr.get? i = some url then
      let s := arr.take i ++ arr.drop (i + 1)
      removeScan url fuel (i + 1) (s ++ arr.drop (arr.length - 1)) s
    else
      removeScan url fuel (i + 1) arr cur

/-- One iteration of the second loop of `Update`. -/
def removeEntry (p : providers) (entry : patchEntry) : providers :=
  match p.services entry.Name with
  | some providerURLs =>
    p.set entry.Name (removeScan entry.URL providerURLs.length 0 providerURLs providerURLs)
  | none => p

/-- The method `providers.Update`: all `Added` entries, then all `Removed` entries. -/
def providers.Update (p : providers) (pat : patch) : providers :=
  pat.Removed.foldl removeEntry (pat.Added.foldl addEntry p)

/-- What a call of `providers.get` does. -/
inductive GetResult where
  | ok (url : String)
  | error (msg : String)
  | panic
deriving DecidableEq, Repr

/-- The method `providers.get`. `idx` is the value of
`int(rand.Float32() * float32(len(providers)))`; indexing outside the slice panics. -/
def providers.get (idx : Nat) (p : providers) (name : ServiceName) : GetResult :=
  match p.services name with
  | none => .error ("no providers registered for " ++ name)
  | some providers =>
    match providers.get? idx with
    | some url => .ok url
    | none => .panic

/-- The function `GetProvider`, on a given cache. -/
def GetProvider (idx : Nat) (p : providers) (service : ServiceName) : GetResult :=
  p.get idx service

/-! ## server.go: the registration table -/

/-- One attempted HTTP push of `sendPatch(p, url)`. -/
structure Push where
  url : String
  body : patch
deriving DecidableEq, Repr

/-- The struct `registry`. `writeLocked` tells that `mutex` is held exclusively by a
call that has already returned. -/
structure registry where
  registrations : List Registration
  writeLocked : Bool
deriving DecidableEq, Repr

/-- The variable `reg`: an empty table with a fresh mutex. -/
def reg : registry := { registrations := [], writeLocked := false }

/-- How a call ends: it returns its `error` (`none` is `nil`), or it waits for the
mutex for ever. -/
inductive Ret where
  | returned (err : Option String)
  | blocked
deriving DecidableEq, Repr

/-- The table after a call, the pushes the call caused, and how the call ended. -/
structure Effect where
  reg : registry
  pushes : List Push
  ret : Ret
deriving DecidableEq, Repr

/-- The loop over `fullPatch.Added` (or `fullPatch.Removed`) in `notify`: the entries
appended to the filtered patch, and whether `sendUpdate` was set. -/
def collect (reqService : ServiceName) (entries : List patchEntry) :
    List patchEntry × Bool :=
  entries.foldl
    (fun acc e => if e.Name = reqService then (acc.1 ++ [e], true) else acc) ([], false)

/-- The loop over `reg.RequiredServices` in the goroutine that `notify` starts for the
row `row`, given the update URL of the row: the pushes attempted, in order. A push that
returns an error ends the goroutine. -/
def notifyLoop (send : patch → String → Option String) (fullPatch : patch)
    (updateURL : String) : List ServiceName → List Push
  | [] => []
  | reqService :: rest =>
    let added := collect reqService fullPatch.Added
    let removed := collect reqService fullPatch.Removed
    let p : patch := { Added := added.1, Removed := removed.1 }
    if added.2 || removed.2 then
      match send p updateURL with
      | some _ => [{ url := updateURL, body := p }]
      | none => { url := updateURL, body := p } :: notifyLoop send fullPatch updateURL rest
    else
      notifyLoop send fullPatch updateURL rest

/-- The goroutine `go func(reg Registration)` of `notify` for one row. -/
def notifyTask (send : patch → String → Option String) (fullPatch : patch)
    (row : Registration) : List Push :=
  notifyLoop send fullPatch row.ServiceUpdateURL row.RequiredServices

/-- The method `notify`: takes the read lock (`none`: waits for ever), starts one
goroutine per row. The pushes of the goroutines are listed row after row; the order
between different goroutines is not fixed by the program. -/
def notify (send : patch → String → Option String) (r : registry) (fullPatch : patch) :
    Option (List Push) :=
  if r.writeLocked then none
  else some (r.registrations.flatMap (notifyTask send fullPatch))

/-- The two nested loops of `sendRequiredServices`: the `Added` list built for a
registration with the required services `required`. -/
def requiredEntries (required : List ServiceName) (rows : List Registration) :
    List patchEntry :=
  rows.foldl
    (fun acc serviceReg =>
      required.foldl
        (fun acc2 reqService =>
          if serviceReg.ServiceName = reqService then
            acc2 ++ [{ Name := serviceReg.ServiceName, URL := serviceReg.ServiceURL }]
          else acc2)
        acc)
    []

/-- The method `sendRequiredServices`: takes the read lock (`none`: waits for ever),
pushes one patch, and returns the error of the push. -/
def sendRequiredServices (send : patch → String → Option String) (r : registry)
    (row : Registration) : Option (List Push × Option String) :=
  if r.writeLocked then none
  else
    let p : patch := { Added := requiredEntries row.RequiredServices r.registrations,
                       Removed := [] }
    some ([{ url := row.ServiceUpdateURL, body := p }], send p row.ServiceUpdateURL)

/-- The method `add`. `saveErr` is what `saveToFile` returns. When it is an error the
method returns it at once, without `Unlock`. The pushes of `sendRequiredServices` are
made before `add` returns; those of the goroutines of `notify` are listed after them and
may still be under way when `add` returns. -/
def add (send : patch → String → Option String) (saveErr : Option String) (r : registry)
    (row : Registration) : Effect :=
  if r.writeLocked then { reg := r, pushes := [], ret := .blocked }
  else
    let r1 : registry := { registrations := r.registrations ++ [row], writeLocked := true }
    match saveErr with
    | some e => { reg := r1, pushes := [], ret := .returned (some e) }
    | none =>
      let r2 : registry := { r1 with writeLocked := false }
      match sendRequiredServices send r2 row with
      | none => { reg := r2, pushes := [], ret := .blocked }
      | some (sent, err) =>
        match notify send r2
            { Added := [{ Name := row.ServiceName, URL := row.ServiceURL }], Removed := [] } with
        | none => { reg := r2, pushes := sent, ret := .blocked }
        | some pushed => { reg := r2, pushes := sent ++ pushed, ret := .returned err }

/-- The scan `for k := range r.registrations` of `remove`: the first index whose row has
the URL, and that row. -/
def findURL (url : String) : List Registration → Option (Nat × Registration)
  | [] => none
  | row :: rest =>
    if row.ServiceURL = url then some (0, row)
    else (findURL url rest).map (fun found => (found.1 + 1, found.2))

/-- The method `remove`: on the first row with the URL it notifies, then cuts the row
out with `append(r.registrations[:k], r.registrations[k+1:]...)` under the exclusive
lock; with no such row it returns the error. -/
def remove (send : patch → String → Option String) (r : registry) (url : String) :
    Effect :=
  match findURL url r.registrations with
  | some (k, row) =>
    match notify send r
        { Added := [], Removed := [{ Name := row.ServiceName, URL := row.ServiceURL }] } with
    | none => { reg := r, pushes := [], ret := .blocked }
    | some pushed =>
      { reg := { r with registrations := r.registrations.take k ++ r.registrations.drop (k + 1) },
        pushes := pushed, ret := .returned none }
  | none =>
    { reg := r, pushes := [], ret := .returned (some ("service at URL " ++ url ++ " not found")) }

/-! ## server.go: the failure detector -/

/-- What `http.Get(reg.HeartbeatURL)` gives: an error, or a response with a status. -/
inductive Probe where
  | failed (err : String)
  | status (code : Nat)
deriving DecidableEq, Repr

/-- The probe passed: `err == nil` and `res.StatusCode == http.StatusOK`. -/
def Probe.passed : Probe → Bool
  | .failed _ => false
  | .status code => code = 200

/-- A call made by a probing goroutine. -/
inductive Call where
  | remove (url : String)
  | add (row : Registration)
deriving DecidableEq, Repr

/-- The table, the pushes and the calls made so far by a probing goroutine; `stuck`
tells that one of its calls waits for the mutex for ever. -/
structure TaskState where
  reg : registry
  pushes : List Push
  calls : List Call
  stuck : Bool
deriving DecidableEq, Repr

/-- The loop `for attemps := 0; attemps < 3; attemps++` of the goroutine that
`heartbeat` starts for `row`, with `fuel` attempts left. `probe k` is the outcome of
attempt `k`, `saveErr` is what `saveToFile` returns inside a re-`add`. -/
def heartbeatLoop (send : patch → String → Option String) (saveErr : Option String)
    (probe : Nat → Probe) (row : Registration) :
    Nat → Nat → Bool → TaskState → TaskState
  | 0, _, _, st => st
  | fuel + 1, attemps, success, st =>
    if (probe attemps).passed then
      if !success then
        let e := add send saveErr st.reg row
        { reg := e.reg, pushes := st.pushes ++ e.pushes, calls := st.calls ++ [.add row],
          stuck := e.ret = .blocked }
      else st
    else if success then
      let e := remove send st.reg row.ServiceURL
      let st1 : TaskState :=
        { reg := e.reg, pushes := st.pushes ++ e.pushes,
          calls := st.calls ++ [.remove row.ServiceURL], stuck := e.ret = .blocked }
      if st1.stuck then st1
      else heartbeatLoop send saveErr probe row fuel (attemps + 1) false st1
    else heartbeatLoop send saveErr probe row fuel (attemps + 1) success st

/-- The goroutine `go func(reg Registration)` of `heartbeat` for one row, run on the
table `r`. -/
def heartbeatTask (send : patch → String → Option String) (saveErr : Option String)
    (probe : Nat → Probe) (r : registry) (row : Registration) : TaskState :=
  heartbeatLoop send saveErr probe row 3 0 true
    { reg := r, pushes := [], calls := [], stuck := false }

/-! ## server.go: the HTTP handler -/

/-- An incoming request: its method, what `dec.Decode(&r)` gives on its body (`none` is
an error) and what `io.ReadAll(r.Body)` gives (`none` is an error). -/
structure Request where
  Method : String
  decoded : Option Registration
  payload : Option String
deriving DecidableEq, Repr

/-- How the handler ends: the response status (200 when `WriteHeader` is never called),
the end of the process (`log.Fatal` prints and calls `os.Exit(1)`), or a wait for the
mutex for ever. -/
inductive Response where
  | status (code : Nat)
  | exit
  | blocked
deriving DecidableEq, Repr

/-- The table after the handler, the pushes caused, and how the handler ended. -/
structure Served where
  reg : registry
  pushes : List Push
  response : Response
deriving DecidableEq, Repr

/-- The method `RegistryService.ServeHTTP`, on the table `r`. -/
def ServeHTTP (send : patch → String → Option String) (saveErr : Option String)
    (r : registry) (req : Request) : Served :=
  if req.Method = "POST" then
    match req.decoded with
    | none => { reg := r, pushes := [], response := .status 400 }
    | some row =>
      let e := add send saveErr r row
      match e.ret with
      | .blocked => { reg := e.reg, pushes := e.pushes, response := .blocked }
      | .returned (some _) => { reg := e.reg, pushes := e.pushes, response := .status 400 }
      | .returned none => { reg := e.reg, pushes := e.pushes, response := .status 200 }
  else if req.Method = "DELETE" then
    match req.payload with
    | none => { reg := r, pushes := [], response := .exit }
    | some url =>
      let e := remove send r url
      match e.ret with
      | .blocked => { reg := e.reg, pushes := e.pushes, response := .blocked }
      | .returned (some _) => { reg := e.reg, pushes := e.pushes, response := .exit }
      | .returned none => { reg := e.reg, pushes := e.pushes, response := .status 200 }
  else { reg := r, pushes := [], response := .status 405 }

/-! ## Sequences of table operations -/

/-- One call on the table: an `add` together with the result of its `saveToFile`, or a
`remove`. -/
inductive Op where
  | add (row : Registration) (saveErr : Option String)
  | remove (url : String)
deriving DecidableEq, Repr

/-- The table after one call (unchanged when the call waits for the mutex). -/
def step (send : patch → String → Option String) (r : registry) : Op → registry
  | .add row saveErr => (add send saveErr r row).reg
  | .remove url => (remove send r url).reg

/-- The table after a sequence of calls. -/
def run (send : patch → String → Option String) (ops : List Op) (r : registry) : registry :=
  ops.foldl (step send) r

/-- Every `add` of the sequence registers a URL that no row of the table has when the
`add` is made. -/
def freshAdds (send : patch → String → Option String) : List Op → registry → Bool
  | [], _ => true
  | op :: rest, r =>
    (match op with
      | .add row _ => !(r.registrations.any (fun x => x.ServiceURL = row.ServiceURL))
      | .remove _ => true)
    && freshAdds send rest (step send r op)

/-- A network on which every push succeeds. -/
def allDelivered : patch → String → Option String := fun _ _ => none

/-- The patches among `pushes` sent to `url`, applied one after the other to a cache. -/
def deliver (p : providers) (url : String) (pushes : List Push) : providers :=
  (pushes.filter (fun q => q.url = url)).foldl (fun c q => c.Update q.body) p

def logRow : Registration :=
  { ServiceName := "LogService", ServiceURL := "http://h:4000", RequiredServices := [],
    ServiceUpdateURL := "http://h:4000/services", HeartbeatURL := "http://h:4000/heartbeat" }

def gradingRow : Registration :=
  { ServiceName := "GradingService", ServiceURL := "http://h:6000",
    RequiredServices := ["LogService"],
    ServiceUpdateURL := "http://h:6000/services", HeartbeatURL := "http://h:6000/heartbeat" }

/-- A registration that lists `LogService` twice among its required services. -/
def gradingTwiceRow : Registration :=
  { ServiceName := "GradingService", ServiceURL := "http://h:6000",
    RequiredServices := ["LogService", "LogService"],
    ServiceUpdateURL := "http://h:6000/services", HeartbeatURL := "http://h:6000/heartbeat" }

/-- A second registration under the URL of `logRow`, with endpoints of its own. -/
def logTwinRow : Registration :=
  { ServiceName := "LogService", ServiceURL := "http://h:4000", RequiredServices := [],
    ServiceUpdateURL := "http://h:4001/services", HeartbeatURL := "http://h:4001/heartbeat" }

/-! ## server.go: the snapshot file

`saveToFile` writes the table with `json.NewEncoder(file).Encode`, `loadFromFile` reads
it back with `json.NewDecoder(file).Decode`. The text of `encoding/json` for a
`[]Registration` is modelled on lists of characters. Strings are sequences of Unicode
characters: every string of a row comes out of a JSON decoder, which delivers valid
UTF-8. -/

/-- The table `hex` of the encoder. -/
def hexChar (n : Nat) : Char := "0123456789abcdef".data.getD n '0'

/-- What the string encoder writes for one character (with HTML escaping, the default of
an `Encoder`): the characters 34 and 92 (double quote and backslash) behind a backslash,
the short escapes of backspace, form feed, newline, carriage return and tab, a `u00XX`
escape for the other control characters and for `<`, `>`, `&`, a `u202X` escape for the
line and paragraph separators U+2028 and U+2029, and the character itself otherwise.
(Older releases of the library write `u0008` and `u000c` for backspace and form feed;
`parseStringBody` reads both forms.) -/
def escapeChar (c : Char) : List Char :=
  if c.toNat = 34 ∨ c.toNat = 92 then [Char.ofNat 92, c]
  else if c.toNat = 8 then [Char.ofNat 92, 'b']
  else if c.toNat = 12 then [Char.ofNat 92, 'f']
  else if c.toNat = 10 then [Char.ofNat 92, 'n']
  else if c.toNat = 13 then [Char.ofNat 92, 'r']
  else if c.toNat = 9 then [Char.ofNat 92, 't']
  else if c.toNat < 32 ∨ c.toNat = 60 ∨ c.toNat = 62 ∨ c.toNat = 38 then
    [Char.ofNat 92, 'u', '0', '0', hexChar (c.toNat / 16), hexChar (c.toNat % 16)]
  else if c.toNat = 8232 ∨ c.toNat = 8233 then
    [Char.ofNat 92, 'u', '2', '0', '2', hexChar (c.toNat % 16)]
  else [c]

/-- A JSON string literal: the escaped characters between two `"`. -/
def encodeString (s : String) : List Char :=
  Char.ofNat 34 :: (s.data.flatMap escapeChar ++ [Char.ofNat 34])

/-- The elements of a JSON array, separated by commas. -/
def joinComma : List (List Char) → List Char
  | [] => []
  | [x] => x
  | x :: y :: rest => x ++ ',' :: joinComma (y :: rest)

/-- A `[]ServiceName`: `null` for a nil slice, else an array of string literals. In the
model an empty list stands for both the nil and the empty slice; `asNull` tells which
one is meant. -/
def encodeNames (asNull : Bool) (names : List String) : List Char :=
  if names = [] ∧ asNull = true then "null".data
  else '[' :: (joinComma (names.map encodeString) ++ [']'])

/-- A `Registration`: an object with the five fields in their order of declaration. -/
def encodeRegistration (asNull : Bool) (row : Registration) : List Char :=
  Char.ofNat 123 :: (encodeString "ServiceName" ++ ':' :: encodeString row.ServiceName
    ++ ',' :: encodeString "ServiceURL" ++ ':' :: encodeString row.ServiceURL
    ++ ',' :: encodeString "RequiredServices" ++ ':'
      :: encodeNames asNull row.RequiredServices
    ++ ',' :: encodeString "ServiceUpdateURL" ++ ':' :: encodeString row.ServiceUpdateURL
    ++ ',' :: encodeString "HeartbeatURL" ++ ':' :: encodeString row.HeartbeatURL
    ++ [Char.ofNat 125])

/-- The rows of the table from index `k` on; `asNull i` tells whether an empty
`RequiredServices` of row `i` is the nil slice. -/
def encodeRows (asNull : Nat → Bool) : Nat → List Registration → List (List Char)
  | _, [] => []
  | k, row :: rest => encodeRegistration (asNull k) row :: encodeRows asNull (k + 1) rest

/-- What `Encode(r.registrations)` writes: the array of the rows, then a newline. (The
table is never the nil slice when `saveToFile` runs: `add` has just appended to it.) -/
def encodeTable (asNull : Nat → Bool) (rows : List Registration) : String :=
  String.mk ('[' :: (joinComma (encodeRows asNull 0 rows) ++ [']', Char.ofNat 10]))

/-- The decoder skips blanks, tabs, carriage returns and newlines between tokens. -/
def skipSpace : List Char → List Char
  | [] => []
  | c :: rest =>
    if c.toNat = 32 ∨ c.toNat = 9 ∨ c.toNat = 13 ∨ c.toNat = 10 then skipSpace rest
    else c :: rest

/-- The text after the literal `lit`, when the text starts with it. -/
def expectText : List Char → List Char → Option (List Char)
  | [], cs => some cs
  | _ :: _, [] => none
  | l :: lit, c :: cs => if l = c then expectText lit cs else none

/-- The value of a hexadecimal digit. -/
def hexValue (c : Char) : Option Nat :=
  if 48 ≤ c.toNat ∧ c.toNat ≤ 57 then some (c.toNat - 48)
  else if 97 ≤ c.toNat ∧ c.toNat ≤ 102 then some (c.toNat - 87)
  else if 65 ≤ c.toNat ∧ c.toNat ≤ 70 then some (c.toNat - 55)
  else none

/-- The number written by four hexadecimal digits. -/
def hexValue4 (a b c d : Char) : Option Nat :=
  match hexValue a, hexValue b, hexValue c, hexValue d with
  | some x, some y, some z, some w => some (((x * 16 + y) * 16 + z) * 16 + w)
  | _, _, _, _ => none

/-- The character of a one-letter escape. -/
def unescapeChar (c : Char) : Option Char :=
  if c.toNat = 34 ∨ c.toNat = 92 ∨ c.toNat = 47 then some c
  else if c = 'b' then some (Char.ofNat 8)
  else if c = 'f' then some (Char.ofNat 12)
  else if c = 'n' then some (Char.ofNat 10)
  else if c = 'r' then some (Char.ofNat 13)
  else if c = 't' then some (Char.ofNat 9)
  else none

/-- The character of a `\uXXXX` escape with the value `n`; a surrogate half that is not
part of a pair gives U+FFFD. -/
def unicodeChar (n : Nat) : Char :=
  if 55296 ≤ n ∧ n < 57344 then Char.ofNat 65533 else Char.ofNat n

/-- The character of a surrogate pair. -/
def surrogatePair (hi lo : Nat) : Char :=
  Char.ofNat ((hi - 55296) * 1024 + (lo - 56320) + 65536)

/-- The replacement character written for a high surrogate half that found no low half. -/
def flush (pending : Option Nat) : List Char :=
  match pending with
  | none => []
  | some _ => [Char.ofNat 65533]

/-- The inside of a string literal, after the opening `"`: the characters it stands for
and the text after the closing `"`. `pending` is the value of a high surrogate half read
just before, which a low half may complete. A raw control character, an unknown escape
or a missing closing `"` is an error. -/
def parseStringBody : Option Nat → List Char → Option (List Char × List Char)
  | _, [] => none
  | pending, c :: cs =>
    if c.toNat = 34 then some (flush pending, cs)
    else if c.toNat = 92 then
      match cs with
      | [] => none
      | e :: cs1 =>
        if e = 'u' then
          match cs1 with
          | a :: b :: x :: y :: cs2 =>
            match hexValue4 a b x y with
            | none => none
            | some n =>
              match pending with
              | some hi =>
                if 56320 ≤ n ∧ n < 57344 then
                  (parseStringBody none cs2).map
                    (fun found => (surrogatePair hi n :: found.1, found.2))
                else if 55296 ≤ n ∧ n < 56320 then
                  (parseStringBody (some n) cs2).map
                    (fun found => (Char.ofNat 65533 :: found.1, found.2))
                else
                  (parseStringBody none cs2).map
                    (fun found => (Char.ofNat 65533 :: unicodeChar n :: found.1, found.2))
              | none =>
                if 55296 ≤ n ∧ n < 56320 then parseStringBody (some n) cs2
                else
                  (parseStringBody none cs2).map
                    (fun found => (unicodeChar n :: found.1, found.2))
          | _ => none
        else
          match unescapeChar e with
          | none => none
          | some ch =>
            (parseStringBody none cs1).map
              (fun found => (flush pending ++ ch :: found.1, found.2))
    else if c.toNat < 32 then none
    else
      (parseStringBody none cs).map (fun found => (flush pending ++ c :: found.1, found.2))

/-- A string literal: the string it stands for and the text after it. -/
def parseString (cs : List Char) : Option (String × List Char) :=
  match cs with
  | [] => none
  | c :: rest =>
    if c.toNat = 34 then
      (parseStringBody none rest).map (fun found => (String.mk found.1, found.2))
    else none

/-- A value stored into a `string`: a string literal, or `null`, which leaves the old
value `old`. -/
def parseStringValue (old : String) (cs : List Char) : Option (String × List Char) :=
  match expectText "null".data (skipSpace cs) with
  | some rest => some (old, rest)
  | none => parseString (skipSpace cs)

/-- The elements of an array of strings after the first token: `fuel` bounds the number
of elements. -/
def parseNameList : Nat → List Char → Option (List String × List Char)
  | 0, _ => none
  | fuel + 1, cs =>
    match parseStringValue "" cs with
    | none => none
    | some (name, rest) =>
      match skipSpace rest with
      | [] => none
      | d :: rest1 =>
        if d = ',' then
          (parseNameList fuel rest1).map (fun found => (name :: found.1, found.2))
        else if d = ']' then some ([name], rest1)
        else none

/-- A value stored into a `[]ServiceName`: `null`, `[]`, or an array of strings. -/
def parseNames (fuel : Nat) (cs : List Char) : Option (List String × List Char) :=
  match expectText "null".data (skipSpace cs) with
  | some rest => some ([], rest)
  | none =>
    match skipSpace cs with
    | [] => none
    | c :: rest =>
      if c = '[' then
        match skipSpace rest with
        | [] => none
        | d :: rest1 => if d = ']' then some ([], rest1) else parseNameList fuel (d :: rest1)
      else none

/-- The zero value of `Registration`. -/
def zeroRegistration : Registration :=
  { ServiceName := "", ServiceURL := "", RequiredServices := [], ServiceUpdateURL := "",
    HeartbeatURL := "" }

/-- The value of the member `key` stored into the field of `acc` with that name. -/
def parseField (fuel : Nat) (acc : Registration) (key : String) (cs : List Char) :
    Option (Registration × List Char) :=
  if key = "ServiceName" then
    (parseStringValue acc.ServiceName cs).map
      (fun found => ({ acc with ServiceName := found.1 }, found.2))
  else if key = "ServiceURL" then
    (parseStringValue acc.ServiceURL cs).map
      (fun found => ({ acc with ServiceURL := found.1 }, found.2))
  else if key = "RequiredServices" then
    (parseNames fuel cs).map
      (fun found => ({ acc with RequiredServices := found.1 }, found.2))
  else if key = "ServiceUpdateURL" then
    (parseStringValue acc.ServiceUpdateURL cs).map
      (fun found => ({ acc with ServiceUpdateURL := found.1 }, found.2))
  else if key = "HeartbeatURL" then
    (parseStringValue acc.HeartbeatURL cs).map
      (fun found => ({ acc with HeartbeatURL := found.1 }, found.2))
  else none

/-- The members of an object after the opening brace: `fuel` bounds their number. -/
def parseMembers : Nat → Registration → List Char → Option (Registration × List Char)
  | 0, _, _ => none
  | fuel + 1, acc, cs =>
    match parseString (skipSpace cs) with
    | none => none
    | some (key, rest) =>
      match skipSpace rest with
      | [] => none
      | colon :: rest1 =>
        if colon = ':' then
          match parseField (fuel + 1) acc key rest1 with
          | none => none
          | some (acc1, rest2) =>
            match skipSpace rest2 with
            | [] => none
            | d :: rest3 =>
              if d = ',' then parseMembers fuel acc1 rest3
              else if d.toNat = 125 then some (acc1, rest3)
              else none
        else none

/-- A value stored into a fresh `Registration`: `null`, or an object. -/
def parseRegistration (fuel : Nat) (cs : List Char) : Option (Registration × List Char) :=
  match expectText "null".data (skipSpace cs) with
  | some rest => some (zeroRegistration, rest)
  | none =>
    match skipSpace cs with
    | [] => none
    | c :: rest =>
      if c.toNat = 123 then
        match skipSpace rest with
        | [] => none
        | d :: rest1 =>
          if d.toNat = 125 then some (zeroRegistration, rest1)
          else parseMembers fuel zeroRegistration (d :: rest1)
      else none

/-- The elements of the array of rows after the first token: `fuel` bounds their
number. -/
def parseRowList : Nat → List Char → Option (List Registration × List Char)
  | 0, _ => none
  | fuel + 1, cs =>
    match parseRegistration (fuel + 1) cs with
    | none => none
    | some (row, rest) =>
      match skipSpace rest with
      | [] => none
      | d :: rest1 =>
        if d = ',' then
          (parseRowList fuel rest1).map (fun found => (row :: found.1, found.2))
        else if d = ']' then some ([row], rest1)
        else none

/-- What `Decode(&r.registrations)` stores into an empty table, for the first JSON value
of the text: `null`, `[]`, or an array of rows; `none` is an error. Each element is
decoded into a zero `Registration`. Member names other than the five field names,
numbers, booleans and nested values, which `saveToFile` never writes, are errors
here. -/
def decodeTable (text : String) : Option (List Registration) :=
  match expectText "null".data (skipSpace text.data) with
  | some _ => some []
  | none =>
    match skipSpace text.data with
    | [] => none
    | c :: rest =>
      if c = '[' then
        match skipSpace rest with
        | [] => none
        | d :: rest1 =>
          if d = ']' then some []
          else (parseRowList text.length (d :: rest1)).map (fun found => found.1)
      else none

/-- The directory of the registry: the content of `./registry.json`, `none` when there
is no such file. -/
structure Disk where
  file : Option String
deriving DecidableEq, Repr

/-- The method `saveToFile`. `createErr` is the error of `os.Create`, `writeErr` the
error of the write together with the number of characters that got written before it,
`asNull` tells which empty `RequiredServices` are nil slices. -/
def saveToFile (createErr : Option String) (writeErr : Option (Nat × String))
    (asNull : Nat → Bool) (disk : Disk) (r : registry) : Disk × Option String :=
  match createErr with
  | some e => (disk, some e)
  | none =>
    match writeErr with
    | some (written, e) =>
      ({ file := some (String.mk ((encodeTable asNull r.registrations).data.take written)) },
        some e)
    | none => ({ file := some (encodeTable asNull r.registrations) }, none)

/-- The method `loadFromFile`. A missing file is no error and leaves the table as it is;
`openErr` is the error of `os.Open` on a file that exists. -/
def loadFromFile (openErr : Option String) (disk : Disk) (r : registry) :
    registry × Option String :=
  match disk.file with
  | none => (r, none)
  | some text =>
    match openErr with
    | some e => (r, some e)
    | none =>
      match decodeTable text with
      | some rows => ({ r with registrations := rows }, none)
      | none => (r, some "json: cannot decode the snapshot")

/-- The function `LoadFromFile`: `loadFromFile` on the table `reg`. -/
def LoadFromFile (openErr : Option String) (disk : Disk) : registry × Option String :=
  loadFromFile openErr disk reg

/-! ## server.go: a round of the failure detector

One pass of the outer loop of `heartbeat`: a goroutine is started for every row that the
table holds when the round starts, and the goroutines run interleaved. A goroutine is
followed through the places where another goroutine can come in between: before each
`http.Get`, inside `remove` after the scan (which holds no lock), and inside `remove`
after `notify` and before `Lock`. An `add` of a recovered row is taken as one step. -/

/-- Where the goroutine of one row stands: `probing` at the head of the loop body, before
`http.Get`, with the values of `attemps` and `success`; `found` in `remove`, when the
scan has found the URL at index `k` and `notify` comes next; `notified` in `remove`, when
`notify` has returned and `Lock` and the cut at index `k` come next; `done` when the
goroutine has returned. -/
inductive Pc where
  | probing (attemps : Nat) (success : Bool)
  | found (k : Nat) (attemps : Nat)
  | notified (k : Nat) (attemps : Nat)
  | done
deriving DecidableEq, Repr

/-- The state of a round: the table, where each goroutine stands (goroutine `i` is the
one of row `i` of the table at the start), the pushes made so far, and whether a
goroutine has panicked, which ends the process. -/
structure RoundState where
  reg : registry
  pcs : Nat → Pc
  pushes : List Push
  crashed : Bool

/-- Goroutine `i` moves to `pc`. -/
def RoundState.goto (st : RoundState) (i : Nat) (pc : Pc) : RoundState :=
  { st with pcs := fun j => if j = i then pc else st.pcs j }

/-- The end of the loop body after a failed attempt: `time.Sleep`, `attemps++` and the
test `attemps < 3`. -/
def nextAttempt (attemps : Nat) : Pc :=
  if attemps + 1 < 3 then .probing (attemps + 1) false else .done

/-- One step of goroutine `i`, started for the row `rows[i]`. `probe i k` is the outcome
of its attempt `k`. A goroutine that waits for the mutex for ever, and a goroutine that
has returned, leave the state as it is; so does a step after a panic. -/
def stepGoroutine (send : patch → String → Option String) (saveErr : Option String)
    (probe : Nat → Nat → Probe) (rows : List Registration) (st : RoundState) (i : Nat) :
    RoundState :=
  if st.crashed then st
  else
    match rows.get? i with
    | none => st
    | some row =>
      match st.pcs i with
      | .done => st
      | .probing attemps success =>
        if (probe i attemps).passed then
          if !success then
            let e := add send saveErr st.reg row
            if e.ret = .blocked then st
            else { (st.goto i .done) with reg := e.reg, pushes := st.pushes ++ e.pushes }
          else st.goto i .done
        else if success then
          match findURL row.ServiceURL st.reg.registrations with
          | some (k, _) => st.goto i (.found k attemps)
          | none => st.goto i (nextAttempt attemps)
        else st.goto i (nextAttempt attemps)
      | .found k attemps =>
        match st.reg.registrations.get? k with
        | none => { st with crashed := true }
        | some cur =>
          match notify send st.reg
              { Added := [], Removed := [{ Name := cur.ServiceName, URL := cur.ServiceURL }] } with
          | none => st
          | some pushed =>
            { (st.goto i (.notified k attemps)) with pushes := st.pushes ++ pushed }
      | .notified k attemps =>
        if st.reg.writeLocked then st
        else if k + 1 ≤ st.reg.registrations.length then
          { (st.goto i (nextAttempt attemps)) with
            reg := { st.reg with
              registrations := st.reg.registrations.take k ++ st.reg.registrations.drop (k + 1) } }
        else { st with crashed := true }

/-- The state when the round starts on the table `r`: every goroutine is before its
first `http.Get`. -/
def startRound (r : registry) : RoundState :=
  { reg := r, pcs := fun _ => .probing 0 true, pushes := [], crashed := false }

/-- One round of `heartbeat` on the table `r`: `sched` lists, step after step, which
goroutine moves. -/
def heartbeatRound (send : patch → String → Option String) (saveErr : Option String)
    (probe : Nat → Nat → Probe) (sched : List Nat) (r : registry) : RoundState :=
  sched.foldl (stepGoroutine send saveErr probe r.registrations) (startRound r)

/-- The round that was started with `n` goroutines has ended: `wg.Wait()` returns, as
all of them have returned and none has panicked. -/
def roundEnded (n : Nat) (st : RoundState) : Bool :=
  !st.crashed && (List.range n).all (fun i => st.pcs i = .done)

/-- A row that answers but not with status 200, and a healthy row. -/
def haltedRow : Registration :=
  { ServiceName := "H", ServiceURL := "http://h:7000", RequiredServices := [],
    ServiceUpdateURL := "http://h:7000/services", HeartbeatURL := "http://h:7000/heartbeat" }

def healthyRow : Registration :=
  { ServiceName := "X", ServiceURL := "http://h:8000", RequiredServices := [],
    ServiceUpdateURL := "http://h:8000/services", HeartbeatURL := "http://h:8000/heartbeat" }

/-- Probe outcomes of a round in which goroutine 0 never gets an answer and every other
goroutine gets status 200. -/
def firstFails : Nat → Nat → Probe :=
  fun i _ => if i = 0 then .failed "connection refused" else .status 200

/-- Probe outcomes of a round in which goroutines 0 and 1 get status 503 and every other
goroutine gets status 200. -/
def firstTwoFail : Nat → Nat → Probe :=
  fun i _ => if i < 2 then .status 503 else .status 200

/-- The places the goroutine at index `G` goes through when its three probes fail and no
other goroutine changes the table, numbered from 0 to 5. -/
def failingPath (G : Nat) : Nat → Pc
  | 0 => .probing 0 true
  | 1 => .found G 0
  | 2 => .notified G 0
  | 3 => .probing 1 false
  | 4 => .probing 2 false
  | _ => .done

/-- The states of a round on the table `before ++ g :: after` in which the goroutine of
`g` stands at place `ph` of its failing path and the other goroutines have not touched
the table. -/
def onFailingPath (send : patch → String → Option String) (before after : List Registration)
    (g : Registration) (ph : Nat) (st : RoundState) : Prop :=
  st.crashed = false ∧
  st.pcs before.length = failingPath before.length ph ∧
  st.reg = ⟨if ph ≤ 2 then before ++ g :: after else before ++ after, false⟩ ∧
  st.pushes =
    (if ph ≤ 1 then []
     else (before ++ g :: after).flatMap
       (notifyTask send ⟨[], [⟨g.ServiceName, g.ServiceURL⟩]⟩)) ∧
  ∀ i, i ≠ before.length → st.pcs i = .probing 0 true ∨ st.pcs i = .done

/-! ## Lemmas on the table operations -/

theorem findURL_none_iff (url : String) (rows : List Registration) :
    findURL url rows = none ↔ ∀ row ∈ rows, row.ServiceURL ≠ url := by
  induction rows with
  | nil => simp [findURL]
  | cons row rest ih =>
    by_cases h : row.ServiceURL = url
    · simp [findURL, h]
    · simp [findURL, h, ih]

theorem take_drop_succ_sublist {α : Type} (l : List α) (k : Nat) :
    (l.take k ++ l.drop (k + 1)).Sublist l := by
  have h1 : (l.drop (k + 1)).Sublist (l.drop k) := by
    have := List.drop_sublist 1 (l.drop k)
    simpa [List.drop_drop, Nat.add_comm] using this
  have h2 := List.Sublist.append_left h1 (l.take k)
  simpa using h2

theorem remove_registrations_sublist (send : patch → String → Option String) (r : registry)
    (url : String) : ((remove send r url).reg.registrations).Sublist r.registrations := by
  unfold remove
  split
  · split
    · exact List.Sublist.refl _
    · exact take_drop_succ_sublist _ _
  · exact List.Sublist.refl _

theorem add_registrations (send : patch → String → Option String) (saveErr : Option String)
    (r : registry) (row : Registration) :
    (add send saveErr r row).reg.registrations = r.registrations ∨
      (add send saveErr r row).reg.registrations = r.registrations ++ [row] := by
  unfold add
  split
  · exact Or.inl rfl
  · right
    cases saveErr with
    | some e => rfl
    | none =>
      simp only
      split
      · rfl
      · split <;> rfl

theorem run_keeps_urls_distinct (send : patch → String → Option String) (ops : List Op) :
    ∀ (r : registry) (k : Nat), (r.registrations.map (·.ServiceURL)).Nodup →
      freshAdds send ops r = true →
      ((run send (ops.take k) r).registrations.map (·.ServiceURL)).Nodup := by
  induction ops with
  | nil => intro r k hr _; simpa [run] using hr
  | cons op rest ih =>
    intro r k hr hf
    cases k with
    | zero => simpa [run] using hr
    | succ k =>
      simp only [freshAdds, Bool.and_eq_true] at hf
      have hstep : ((step send r op).registrations.map (·.ServiceURL)).Nodup := by
        cases op with
        | add row saveErr =>
          rcases add_registrations send saveErr r row with h | h
          · simpa [step, h] using hr
          · have hfresh : ∀ x ∈ r.registrations, x.ServiceURL ≠ row.ServiceURL := by
              simpa using hf.1
            simp only [step, h, List.map_append, List.map_cons, List.map_nil]
            refine List.Nodup.append hr (List.nodup_singleton _) ?_
            intro u hu hu2
            simp only [List.mem_singleton] at hu2
            obtain ⟨x, hx, rfl⟩ := List.mem_map.1 hu
            exact hfresh x hx hu2
        | remove url =>
          exact List.Nodup.sublist
            ((remove_registrations_sublist send r url).map _) hr
      simpa [run] using ih (step send r op) k hstep hf.2

/-! ## Lemmas on the provider cache -/

theorem addEntry_services (p : providers) (entry : patchEntry) (n : ServiceName) :
    (addEntry p entry).services n =
      if n = entry.Name then some ((p.services entry.Name).getD [] ++ [entry.URL])
      else p.services n := by
  unfold addEntry
  cases h : p.services entry.Name with
  | none => by_cases hn : n = entry.Name <;> simp [providers.set, hn]
  | some l => by_cases hn : n = entry.Name <;> simp [providers.set, hn, h]

theorem removeEntry_services_other (p : providers) (entry : patchEntry) (n : ServiceName)
    (hn : n ≠ entry.Name) : (removeEntry p entry).services n = p.services n := by
  unfold removeEntry
  cases h : p.services entry.Name with
  | none => rfl
  | some l => simp [providers.set, hn]

theorem addEntry_keeps_keys (p : providers) (entry : patchEntry) (k : ServiceName)
    (h : (p.services k).isSome = true) : ((addEntry p entry).services k).isSome = true := by
  rw [addEntry_services]
  by_cases hk : k = entry.Name <;> simp [hk, h]

theorem removeEntry_keeps_keys (p : providers) (entry : patchEntry) (k : ServiceName)
    (h : (p.services k).isSome = true) : ((removeEntry p entry).services k).isSome = true := by
  by_cases hk : k = entry.Name
  · unfold removeEntry
    cases hs : p.services entry.Name with
    | none => simpa [hs] using h
    | some l => simp [providers.set, hk]
  · rw [removeEntry_services_other p entry k hk]; exact h

theorem foldl_keeps_keys (f : providers → patchEntry → providers)
    (hf : ∀ (p : providers) (e : patchEntry) (k : ServiceName),
      (p.services k).isSome = true → ((f p e).services k).isSome = true)
    (entries : List patchEntry) :
    ∀ (p : providers) (k : ServiceName), (p.services k).isSome = true →
      ((entries.foldl f p).services k).isSome = true := by
  induction entries with
  | nil => intro p k h; simpa using h
  | cons e rest ih => intro p k h; exact ih (f p e) k (hf p e k h)

theorem Update_keeps_keys (p : providers) (pat : patch) (k : ServiceName)
    (h : (p.services k).isSome = true) : ((p.Update pat).services k).isSome = true :=
  foldl_keeps_keys removeEntry removeEntry_keeps_keys pat.Removed _ k
    (foldl_keeps_keys addEntry addEntry_keeps_keys pat.Added p k h)

theorem get_of_empty_list (idx : Nat) (p : providers) (name : ServiceName)
    (h : p.services name = some []) : p.get idx name = .panic := by
  simp [providers.get, h]

theorem removeScan_skip (url : String) :
    ∀ (fuel i : Nat) (arr cur : List String),
      (∀ j, i ≤ j → j < i + fuel → arr.get? j ≠ some url) →
      removeScan url fuel i arr cur = cur := by
  intro fuel
  induction fuel with
  | zero => intro i arr cur _; rfl
  | succ fuel ih =>
    intro i arr cur h
    have h0 : arr.get? i ≠ some url := h i (Nat.le_refl _) (by omega)
    rw [removeScan, if_neg h0]
    exact ih (i + 1) arr cur (fun j hj hj2 => h j (by omega) (by omega))

theorem removeScan_absent (url : String) (l : List String) (h : url ∉ l) :
    removeScan url l.length 0 l l = l := by
  apply removeScan_skip
  intro j _ _ hj
  exact h (List.get?_mem hj)

theorem get?_append_mem_right (before rest : List String) (j : Nat) (x : String)
    (hj : before.length ≤ j) (h : (before ++ rest).get? j = some x) : x ∈ rest := by
  rw [List.get?_eq_getElem?, List.getElem?_append_right hj] at h
  exact List.getElem?_mem h

theorem removeScan_prefix (url : String) (before after : List String)
    (hb : url ∉ before) (ha : url ∉ after) :
    ∀ (d i : Nat) (cur : List String), i + d = before.length →
      removeScan url (d + 1 + after.length) i (before ++ url :: after) cur
        = before ++ after := by
  intro d
  induction d with
  | zero =>
    intro i cur hi
    simp only [Nat.add_zero] at hi
    subst hi
    have hget : (before ++ url :: after).get? before.length = some url := by
      rw [List.get?_eq_getElem?, List.getElem?_append_right (Nat.le_refl _)]
      simp
    have hs : (before ++ url :: after).take before.length
        ++ (before ++ url :: after).drop (before.length + 1) = before ++ after := by
      simp
    rw [show 0 + 1 + after.length = after.length + 1 by omega, removeScan, if_pos hget]
    simp only [hs]
    apply removeScan_skip
    intro j hj hj2 hjget
    cases after with
    | nil => simp at hj2; omega
    | cons a rest =>
      have htail : (before ++ url :: a :: rest).drop ((before ++ url :: a :: rest).length - 1)
          = (a :: rest).drop rest.length := by
        have : (before ++ url :: a :: rest).length - 1 = before.length + (rest.length + 1) := by
          simp
        rw [this, ← List.drop_drop, List.drop_left]
        simp
      rw [htail, List.append_assoc] at hjget
      have hx := get?_append_mem_right before _ j url (by omega) hjget
      rcases List.mem_append.1 hx with h | h
      · exact ha h
      · exact ha (List.mem_of_mem_drop h)
  | succ d ih =>
    intro i cur hi
    have hlt : i < before.length := by omega
    have hget : (before ++ url :: after).get? i ≠ some url := by
      rw [List.get?_eq_getElem?, List.getElem?_append_left hlt]
      intro h
      exact hb (List.getElem?_mem h)
    rw [show d + 1 + 1 + after.length = (d + 1 + after.length) + 1 by omega, removeScan,
      if_neg hget]
    exact ih (i + 1) cur (by omega)

theorem removeScan_single (url : String) (before after : List String)
    (hb : url ∉ before) (ha : url ∉ after) :
    removeScan url (before ++ url :: after).length 0 (before ++ url :: after)
        (before ++ url :: after) = before ++ after := by
  have h := removeScan_prefix url before after hb ha before.length 0 (before ++ url :: after)
    (by simp)
  have hl : (before ++ url :: after).length = before.length + 1 + after.length := by
    simp; omega
  rw [hl]; exact h
theorem removeEntry_single (p : providers) (name : ServiceName) (url : String)
    (before after : List String) (hp : p.services name = some (before ++ url :: after))
    (hb : url ∉ before) (ha : url ∉ after) (n : ServiceName) :
    (p.Update ⟨[], [⟨name, url⟩]⟩).services n =
      if n = name then some (before ++ after) else p.services n := by
  simp only [providers.Update, List.foldl_cons, List.foldl_nil, removeEntry, hp, providers.set,
    removeScan_single url before after hb ha]

theorem removeEntry_absent (p : providers) (name : ServiceName) (url : String)
    (h : ∀ l, p.services name = some l → url ∉ l) (n : ServiceName) :
    (p.Update ⟨[], [⟨name, url⟩]⟩).services n = p.services n := by
  simp only [providers.Update, List.foldl_cons, List.foldl_nil, removeEntry]
  cases hp : p.services name with
  | none => rfl
  | some l =>
    simp only [providers.set, removeScan_absent url l (h l hp)]
    by_cases hn : n = name
    · simp [hn, hp]
    · simp [hn]

theorem get_of_index_in_range (idx : Nat) (p : providers) (name : ServiceName)
    (l : List String) (h : p.services name = some l) (hidx : idx < l.length) :
    ∃ url, url ∈ l ∧ p.get idx name = .ok url := by
  refine ⟨l[idx], List.getElem_mem hidx, ?_⟩
  simp [providers.get, h, List.getElem?_eq_getElem hidx]

/-! ## Lemmas on the pushes -/

theorem collect_foldl (reqService : ServiceName) (entries : List patchEntry) :
    ∀ (acc : List patchEntry) (b : Bool),
      entries.foldl
          (fun acc e => if e.Name = reqService then (acc.1 ++ [e], true) else acc) (acc, b)
        = (acc ++ entries.filter (fun e => e.Name = reqService),
            b || entries.any (fun e => e.Name = reqService)) := by
  induction entries with
  | nil => intro acc b; simp
  | cons e rest ih =>
    intro acc b
    by_cases h : e.Name = reqService
    · simp [List.foldl_cons, h, ih]
    · simp [List.foldl_cons, h, ih]

theorem collect_eq (reqService : ServiceName) (entries : List patchEntry) :
    collect reqService entries
      = (entries.filter (fun e => e.Name = reqService),
          entries.any (fun e => e.Name = reqService)) := by
  have := collect_foldl reqService entries [] false
  simpa [collect] using this

theorem notifyLoop_url (send : patch → String → Option String) (fullPatch : patch)
    (updateURL : String) (required : List ServiceName) :
    ∀ q ∈ notifyLoop send fullPatch updateURL required, q.url = updateURL := by
  induction required with
  | nil => intro q hq; simp [notifyLoop] at hq
  | cons s rest ih =>
    intro q hq
    simp only [notifyLoop] at hq
    split at hq
    · split at hq
      · simp only [List.mem_singleton] at hq; rw [hq]
      · rcases List.mem_cons.1 hq with h | h
        · rw [h]
        · exact ih q h
    · exact ih q hq

theorem notifyLoop_added (fullPatch : patch) (updateURL : String)
    (required : List ServiceName) :
    (notifyLoop allDelivered fullPatch updateURL required).flatMap (fun q => q.body.Added)
      = required.flatMap (fun s => fullPatch.Added.filter (fun e => e.Name = s)) := by
  induction required with
  | nil => simp [notifyLoop]
  | cons s rest ih =>
    simp only [notifyLoop, collect_eq, allDelivered, List.flatMap_cons]
    split
    · simp only [List.flatMap_cons, ih]
    · rename_i h
      have h1 : fullPatch.Added.filter (fun e => e.Name = s) = [] := by
        simp only [Bool.or_eq_true, not_or, Bool.not_eq_true] at h
        rw [List.filter_eq_nil_iff]
        intro e he
        have := h.1
        simp only [List.any_eq_false] at this
        simpa using this e he
      rw [h1, ih]; rfl

theorem notifyLoop_removed (fullPatch : patch) (updateURL : String)
    (required : List ServiceName) :
    (notifyLoop allDelivered fullPatch updateURL required).flatMap (fun q => q.body.Removed)
      = required.flatMap (fun s => fullPatch.Removed.filter (fun e => e.Name = s)) := by
  induction required with
  | nil => simp [notifyLoop]
  | cons s rest ih =>
    simp only [notifyLoop, collect_eq, allDelivered, List.flatMap_cons]
    split
    · simp only [List.flatMap_cons, ih]
    · rename_i h
      have h1 : fullPatch.Removed.filter (fun e => e.Name = s) = [] := by
        simp only [Bool.or_eq_true, not_or, Bool.not_eq_true] at h
        rw [List.filter_eq_nil_iff]
        intro e he
        have := h.2
        simp only [List.any_eq_false] at this
        simpa using this e he
      rw [h1, ih]; rfl

theorem notifyLoop_nil_of_no_match (send : patch → String → Option String)
    (fullPatch : patch) (updateURL : String) (required : List ServiceName)
    (h : ∀ e ∈ fullPatch.Added ++ fullPatch.Removed, e.Name ∉ required) :
    notifyLoop send fullPatch updateURL required = [] := by
  induction required with
  | nil => simp [notifyLoop]
  | cons s rest ih =>
    have hrest : ∀ e ∈ fullPatch.Added ++ fullPatch.Removed, e.Name ∉ rest := by
      intro e he hmem
      exact h e he (List.mem_cons_of_mem _ hmem)
    have ha : (fullPatch.Added.any (fun e => e.Name = s)) = false := by
      simp only [List.any_eq_false]
      intro e he
      have := h e (List.mem_append_left _ he)
      simp only [List.mem_cons, not_or] at this
      simpa using this.1
    have hr : (fullPatch.Removed.any (fun e => e.Name = s)) = false := by
      simp only [List.any_eq_false]
      intro e he
      have := h e (List.mem_append_right _ he)
      simp only [List.mem_cons, not_or] at this
      simpa using this.1
    simp [notifyLoop, collect_eq, ha, hr, ih hrest]

theorem flatMap_filter_perm (entries : List patchEntry) (required : List ServiceName)
    (hnd : required.Nodup) :
    (required.flatMap (fun s => entries.filter (fun e => e.Name = s))).Perm
      (entries.filter (fun e => e.Name ∈ required)) := by
  induction required with
  | nil => simp
  | cons s rest ih =>
    have hs : s ∉ rest := (List.nodup_cons.1 hnd).1
    have ih2 := ih (List.nodup_cons.1 hnd).2
    have hsplit := List.filter_append_perm (fun e : patchEntry => decide (e.Name = s))
      (entries.filter (fun e => e.Name ∈ s :: rest))
    have e1 : (entries.filter (fun e => e.Name ∈ s :: rest)).filter
        (fun e : patchEntry => decide (e.Name = s))
        = entries.filter (fun e => e.Name = s) := by
      rw [List.filter_filter]
      apply List.filter_congr
      intro x _
      by_cases hx : x.Name = s <;> simp [hx]
    have e2 : (entries.filter (fun e => e.Name ∈ s :: rest)).filter
        (fun e : patchEntry => !decide (e.Name = s))
        = entries.filter (fun e => e.Name ∈ rest) := by
      rw [List.filter_filter]
      apply List.filter_congr
      intro x _
      by_cases hx : x.Name = s
      · simp [hx, hs]
      · simp [hx]
    rw [e1, e2] at hsplit
    simp only [List.flatMap_cons]
    exact (List.Perm.append_left _ ih2).trans hsplit

theorem notify_split (send : patch → String → Option String) (fullPatch : patch)
    (rows : List Registration) (g : Registration) (hg : g ∈ rows) :
    ∃ before after : List Registration, rows = before ++ g :: after ∧
      notify send ⟨rows, false⟩ fullPatch =
        some (before.flatMap (notifyTask send fullPatch) ++ notifyTask send fullPatch g
          ++ after.flatMap (notifyTask send fullPatch)) := by
  obtain ⟨before, after, h⟩ := List.append_of_mem hg
  refine ⟨before, after, h, ?_⟩
  simp [notify, h, List.flatMap_append]

theorem requiredEntries_inner (row : Registration) (required : List ServiceName) :
    ∀ acc : List patchEntry,
      required.foldl
          (fun acc2 reqService =>
            if row.ServiceName = reqService then
              acc2 ++ [{ Name := row.ServiceName, URL := row.ServiceURL }]
            else acc2)
          acc
        = acc ++ List.replicate (required.count row.ServiceName)
            { Name := row.ServiceName, URL := row.ServiceURL } := by
  induction required with
  | nil => intro acc; simp
  | cons s rest ih =>
    intro acc
    by_cases h : row.ServiceName = s
    · subst h
      simp [List.foldl_cons, ih, List.replicate_succ]
    · have h2 : ¬ s = row.ServiceName := fun e => h e.symm
      simp [List.foldl_cons, ih, h, List.count_cons, h2]

theorem requiredEntries_foldl (required : List ServiceName) (rows : List Registration) :
    ∀ acc : List patchEntry,
      rows.foldl
          (fun acc serviceReg =>
            required.foldl
              (fun acc2 reqService =>
                if serviceReg.ServiceName = reqService then
                  acc2 ++ [{ Name := serviceReg.ServiceName, URL := serviceReg.ServiceURL }]
                else acc2)
              acc)
          acc
        = acc ++ rows.flatMap (fun row =>
            List.replicate (required.count row.ServiceName)
              { Name := row.ServiceName, URL := row.ServiceURL }) := by
  induction rows with
  | nil => intro acc; simp
  | cons row rest ih =>
    intro acc
    simp only [List.foldl_cons, List.flatMap_cons]
    rw [requiredEntries_inner, ih, List.append_assoc]

theorem requiredEntries_eq (required : List ServiceName) (rows : List Registration) :
    requiredEntries required rows =
      rows.flatMap (fun row =>
        List.replicate (required.count row.ServiceName)
          { Name := row.ServiceName, URL := row.ServiceURL }) := by
  have := requiredEntries_foldl required rows []
  simpa [requiredEntries] using this

theorem requiredEntries_nodup (required : List ServiceName) (rows : List Registration)
    (hnd : required.Nodup) :
    requiredEntries required rows =
      (rows.filter (fun row => row.ServiceName ∈ required)).map
        (fun row => { Name := row.ServiceName, URL := row.ServiceURL }) := by
  rw [requiredEntries_eq]
  induction rows with
  | nil => simp
  | cons row rest ih =>
    simp only [List.flatMap_cons, ih]
    by_cases h : row.ServiceName ∈ required
    · have hc : required.count row.ServiceName = 1 := List.count_eq_one_of_mem hnd h
      simp [h, hc]
    · have hc : required.count row.ServiceName = 0 := List.count_eq_zero_of_not_mem h
      simp [h, hc]

theorem notifyLoop_removed_mem (send : patch → String → Option String) (e : patchEntry)
    (updateURL : String) (required : List ServiceName) (h : e.Name ∈ required) :
    { url := updateURL, body := { Added := [], Removed := [e] } }
      ∈ notifyLoop send { Added := [], Removed := [e] } updateURL required := by
  induction required with
  | nil => simp at h
  | cons s rest ih =>
    by_cases hs : e.Name = s
    · simp only [notifyLoop, collect_eq, hs, List.filter_nil, List.any_nil, List.filter_cons,
        List.any_cons, decide_True, Bool.or_false, Bool.false_or, if_true]
      cases send { Added := [], Removed := [e] } updateURL <;> simp
    · have hrest : e.Name ∈ rest := by
        rcases List.mem_cons.1 h with h1 | h1
        · exact absurd h1 hs
        · exact h1
      simp only [notifyLoop, collect_eq, hs, List.filter_nil, List.any_nil, List.filter_cons,
        List.any_cons, decide_False, Bool.or_false, Bool.false_or]
      simpa using ih hrest

theorem findURL_append_cons (url : String) (before after : List Registration)
    (g : Registration) (hg : g.ServiceURL = url)
    (hbefore : ∀ row ∈ before, row.ServiceURL ≠ url) :
    findURL url (before ++ g :: after) = some (before.length, g) := by
  induction before with
  | nil => simp [findURL, hg]
  | cons row rest ih =>
    have h1 : row.ServiceURL ≠ url := hbefore row (List.mem_cons_self _ _)
    have h2 : ∀ x ∈ rest, x.ServiceURL ≠ url :=
      fun x hx => hbefore x (List.mem_cons_of_mem _ hx)
    simp [findURL, h1, ih h2]

theorem remove_only_row_with_url (send : patch → String → Option String)
    (before after : List Registration) (g : Registration)
    (hbefore : ∀ row ∈ before, row.ServiceURL ≠ g.ServiceURL) :
    remove send ⟨before ++ g :: after, false⟩ g.ServiceURL =
      { reg := ⟨before ++ after, false⟩,
        pushes := (before ++ g :: after).flatMap
          (notifyTask send ⟨[], [⟨g.ServiceName, g.ServiceURL⟩]⟩),
        ret := .returned none } := by
  have hk := findURL_append_cons g.ServiceURL before after g rfl hbefore
  simp only [remove, hk, notify]
  simp

theorem probe_not_passed (p : Probe) (h : p ≠ .status 200) : p.passed = false := by
  cases p with
  | failed e => rfl
  | status code =>
    have : code ≠ 200 := fun hc => h (by rw [hc])
    simp [Probe.passed, this]

theorem remove_unknown_url_missing (send : patch → String → Option String) (r : registry)
    (url : String) (h : ∀ row ∈ r.registrations, row.ServiceURL ≠ url) :
    remove send r url =
      { reg := r, pushes := [],
        ret := .returned (some ("service at URL " ++ url ++ " not found")) } := by
  have hnone : findURL url r.registrations = none := (findURL_none_iff url _).2 h
  simp [remove, hnone]

/-! ## Lemmas on the snapshot text -/

theorem char_of_toNat (c : Char) (n : Nat) (h : c.toNat = n) : c = Char.ofNat n := by
  rw [← h, Char.ofNat_toNat]

theorem hexValue_hexChar : ∀ k, k < 16 → hexValue (hexChar k) = some k := by
  decide

theorem expectText_append (lit rest : List Char) : expectText lit (lit ++ rest) = some rest := by
  induction lit with
  | nil => cases rest <;> rfl
  | cons l lit ih => simp [expectText, ih]

theorem parseStringBody_quote (cs : List Char) :
    parseStringBody none (Char.ofNat 34 :: cs) = some ([], cs) := by
  rw [parseStringBody.eq_def]
  simp [flush]

theorem parseStringBody_plain (c : Char) (cs : List Char) (h1 : c.toNat ≠ 34)
    (h2 : c.toNat ≠ 92) (h3 : ¬ c.toNat < 32) :
    parseStringBody none (c :: cs) =
      (parseStringBody none cs).map (fun found => (c :: found.1, found.2)) := by
  rw [parseStringBody.eq_def]
  simp [flush, h1, h2, h3]

theorem parseStringBody_letter (e ch : Char) (cs : List Char) (h1 : e ≠ 'u')
    (h2 : unescapeChar e = some ch) :
    parseStringBody none (Char.ofNat 92 :: e :: cs) =
      (parseStringBody none cs).map (fun found => (ch :: found.1, found.2)) := by
  rw [parseStringBody.eq_def]
  simp [flush, h1, h2]

theorem parseStringBody_unicode (a b x y : Char) (n : Nat) (cs : List Char)
    (h1 : hexValue4 a b x y = some n) (h2 : ¬ (55296 ≤ n ∧ n < 56320)) :
    parseStringBody none (Char.ofNat 92 :: 'u' :: a :: b :: x :: y :: cs) =
      (parseStringBody none cs).map (fun found => (unicodeChar n :: found.1, found.2)) := by
  rw [parseStringBody.eq_def]
  simp [h1, h2]

theorem hexValue4_low (n : Nat) (h : n < 256) :
    hexValue4 '0' '0' (hexChar (n / 16)) (hexChar (n % 16)) = some n := by
  have h1 := hexValue_hexChar (n / 16) (by omega)
  have h2 := hexValue_hexChar (n % 16) (Nat.mod_lt _ (by decide))
  have h0 : hexValue '0' = some 0 := by decide
  simp only [hexValue4, h0, h1, h2]
  congr 1
  omega

theorem hexValue4_separator (n : Nat) (h : n = 8232 ∨ n = 8233) :
    hexValue4 '2' '0' '2' (hexChar (n % 16)) = some n := by
  rcases h with h | h <;> subst h <;> decide

theorem parseStringBody_escapeChar (c : Char) (rest : List Char) :
    parseStringBody none (escapeChar c ++ rest) =
      (parseStringBody none rest).map (fun found => (c :: found.1, found.2)) := by
  unfold escapeChar
  split
  · rename_i h
    have hu : c ≠ 'u' := by
      intro hc; rw [hc] at h; revert h; decide
    have hq : unescapeChar c = some c := by
      rcases h with h | h <;> simp [unescapeChar, h]
    exact parseStringBody_letter c c rest hu hq
  · split
    · rename_i h
      rw [char_of_toNat c 8 h]
      exact parseStringBody_letter 'b' _ rest (by decide) (by decide)
    · split
      · rename_i h
        rw [char_of_toNat c 12 h]
        exact parseStringBody_letter 'f' _ rest (by decide) (by decide)
      · split
        · rename_i h
          rw [char_of_toNat c 10 h]
          exact parseStringBody_letter 'n' _ rest (by decide) (by decide)
        · split
          · rename_i h
            rw [char_of_toNat c 13 h]
            exact parseStringBody_letter 'r' _ rest (by decide) (by decide)
          · split
            · rename_i h
              rw [char_of_toNat c 9 h]
              exact parseStringBody_letter 't' _ rest (by decide) (by decide)
            · split
              · rename_i h
                have hlt : c.toNat < 256 := by omega
                have hx := parseStringBody_unicode '0' '0' (hexChar (c.toNat / 16))
                  (hexChar (c.toNat % 16)) c.toNat rest (hexValue4_low _ hlt) (by omega)
                have hc : unicodeChar c.toNat = c := by
                  have : ¬ (55296 ≤ c.toNat ∧ c.toNat < 57344) := by omega
                  simp [unicodeChar, this, Char.ofNat_toNat]
                rw [hc] at hx
                exact hx
              · split
                · rename_i h
                  have hx := parseStringBody_unicode '2' '0' '2'
                    (hexChar (c.toNat % 16)) c.toNat rest (hexValue4_separator _ h) (by omega)
                  have hc : unicodeChar c.toNat = c := by
                    have : ¬ (55296 ≤ c.toNat ∧ c.toNat < 57344) := by omega
                    simp [unicodeChar, this, Char.ofNat_toNat]
                  rw [hc] at hx
                  exact hx
                · rename_i h1 _ _ _ _ _ h7 _
                  exact parseStringBody_plain c rest (by omega) (by omega) (by omega)

theorem parseStringBody_escaped (s rest : List Char) :
    parseStringBody none (s.flatMap escapeChar ++ Char.ofNat 34 :: rest) = some (s, rest) := by
  induction s with
  | nil => exact parseStringBody_quote rest
  | cons c s ih =>
    rw [List.flatMap_cons, List.append_assoc, parseStringBody_escapeChar, ih]
    rfl

theorem parseString_encodeString (s : String) (rest : List Char) :
    parseString (encodeString s ++ rest) = some (s, rest) := by
  have h := parseStringBody_escaped s.data rest
  simp only [encodeString, List.cons_append, List.append_assoc, List.singleton_append,
    parseString]
  simp [h]

theorem skipSpace_encodeString (s : String) (rest : List Char) :
    skipSpace (encodeString s ++ rest) = encodeString s ++ rest := by
  simp [encodeString, skipSpace]

theorem expectNull_encodeString (s : String) (rest : List Char) :
    expectText "null".data (encodeString s ++ rest) = none := by
  have h : "null".data = ['n', 'u', 'l', 'l'] := rfl
  simp [encodeString, h, expectText]

theorem parseStringValue_encodeString (old s : String) (rest : List Char) :
    parseStringValue old (encodeString s ++ rest) = some (s, rest) := by
  unfold parseStringValue
  rw [skipSpace_encodeString, expectNull_encodeString, parseString_encodeString]

theorem encodeString_head (s : String) (rest : List Char) :
    ∃ tail, encodeString s ++ rest = Char.ofNat 34 :: tail :=
  ⟨_, rfl⟩

theorem encodeString_length (s : String) : 2 ≤ (encodeString s).length := by
  simp [encodeString]

theorem joinComma_names_length (names : List String) :
    names.length ≤ (joinComma (names.map encodeString)).length := by
  induction names with
  | nil => simp [joinComma]
  | cons x xs ih =>
    cases xs with
    | nil =>
      have := encodeString_length x
      simp only [List.map_cons, List.map_nil, joinComma, List.length_singleton]
      omega
    | cons y ys =>
      simp only [List.map_cons, joinComma, List.length_append, List.length_cons] at ih ⊢
      omega

theorem parseNameList_join (names : List String) :
    ∀ (fuel : Nat) (rest : List Char), names ≠ [] → names.length ≤ fuel →
      parseNameList fuel (joinComma (names.map encodeString) ++ ']' :: rest)
        = some (names, rest) := by
  induction names with
  | nil => intro fuel rest h; exact absurd rfl h
  | cons x xs ih =>
    intro fuel rest _ hfuel
    cases fuel with
    | zero => simp at hfuel
    | succ fuel =>
      cases xs with
      | nil =>
        simp only [List.map_cons, List.map_nil, joinComma, parseNameList,
          parseStringValue_encodeString]
        simp [skipSpace]
      | cons y ys =>
        have hlen : (y :: ys).length ≤ fuel := by
          simp only [List.length_cons] at hfuel ⊢
          omega
        have hrec := ih fuel rest (by simp) hlen
        simp only [List.map_cons, joinComma, List.append_assoc, List.cons_append,
          parseNameList, parseStringValue_encodeString]
        simp only [List.map_cons] at hrec
        simp [skipSpace, hrec]

theorem null_data : "null".data = ['n', 'u', 'l', 'l'] := rfl

theorem parseNames_encodeNames (asNull : Bool) (names : List String) (fuel : Nat)
    (rest : List Char) (h : names.length ≤ fuel) :
    parseNames fuel (encodeNames asNull names ++ rest) = some (names, rest) := by
  cases names with
  | nil =>
    cases asNull with
    | true =>
      have h1 : skipSpace ("null".data ++ rest) = "null".data ++ rest := by
        simp [null_data, skipSpace]
      simp only [encodeNames, parseNames, and_self, if_true, h1, expectText_append]
    | false =>
      simp [encodeNames, parseNames, skipSpace, null_data, expectText, joinComma]
  | cons x xs =>
    have hjoin := parseNameList_join (x :: xs) fuel rest (by simp) h
    obtain ⟨tail, ht⟩ : ∃ tail, joinComma ((x :: xs).map encodeString) ++ ']' :: rest
        = Char.ofNat 34 :: tail := by
      cases xs with
      | nil => exact ⟨_, rfl⟩
      | cons y ys => exact ⟨_, rfl⟩
    rw [ht] at hjoin
    have htext : encodeNames asNull (x :: xs) ++ rest = '[' :: Char.ofNat 34 :: tail := by
      simp [encodeNames, ← ht]
    rw [htext]
    simp [parseNames, skipSpace, null_data, expectText, hjoin]

theorem encodeNames_length (asNull : Bool) (names : List String) :
    names.length ≤ (encodeNames asNull names).length := by
  have h := joinComma_names_length names
  unfold encodeNames
  split
  · rename_i hn
    simp [hn.1]
  · simp only [List.length_cons, List.length_append, List.length_singleton]
    omega

theorem parseField_ServiceName (fuel : Nat) (acc : Registration) (v : String)
    (rest : List Char) :
    parseField fuel acc "ServiceName" (encodeString v ++ rest)
      = some ({ acc with ServiceName := v }, rest) := by
  simp [parseField, parseStringValue_encodeString]

theorem parseField_ServiceURL (fuel : Nat) (acc : Registration) (v : String)
    (rest : List Char) :
    parseField fuel acc "ServiceURL" (encodeString v ++ rest)
      = some ({ acc with ServiceURL := v }, rest) := by
  simp [parseField, parseStringValue_encodeString]

theorem parseField_RequiredServices (fuel : Nat) (acc : Registration) (asNull : Bool)
    (names : List String) (rest : List Char) (h : names.length ≤ fuel) :
    parseField fuel acc "RequiredServices" (encodeNames asNull names ++ rest)
      = some ({ acc with RequiredServices := names }, rest) := by
  simp [parseField, parseNames_encodeNames asNull names fuel rest h]

theorem parseField_ServiceUpdateURL (fuel : Nat) (acc : Registration) (v : String)
    (rest : List Char) :
    parseField fuel acc "ServiceUpdateURL" (encodeString v ++ rest)
      = some ({ acc with ServiceUpdateURL := v }, rest) := by
  simp [parseField, parseStringValue_encodeString]

theorem parseField_HeartbeatURL (fuel : Nat) (acc : Registration) (v : String)
    (rest : List Char) :
    parseField fuel acc "HeartbeatURL" (encodeString v ++ rest)
      = some ({ acc with HeartbeatURL := v }, rest) := by
  simp [parseField, parseStringValue_encodeString]

theorem parseMembers_next (fuel : Nat) (acc acc1 : Registration) (key : String)
    (cs rest : List Char)
    (h : parseField (fuel + 1) acc key cs = some (acc1, ',' :: rest)) :
    parseMembers (fuel + 1) acc (encodeString key ++ ':' :: cs)
      = parseMembers fuel acc1 rest := by
  rw [parseMembers, skipSpace_encodeString, parseString_encodeString]
  simp [skipSpace, h]

theorem parseMembers_last (fuel : Nat) (acc acc1 : Registration) (key : String)
    (cs rest : List Char)
    (h : parseField (fuel + 1) acc key cs = some (acc1, Char.ofNat 125 :: rest)) :
    parseMembers (fuel + 1) acc (encodeString key ++ ':' :: cs) = some (acc1, rest) := by
  rw [parseMembers, skipSpace_encodeString, parseString_encodeString]
  simp [skipSpace, h]

theorem encodeRegistration_length (asNull : Bool) (row : Registration) :
    row.RequiredServices.length + 5 ≤ (encodeRegistration asNull row).length := by
  have h := encodeNames_length asNull row.RequiredServices
  simp only [encodeRegistration, List.length_cons, List.length_append, List.length_singleton]
  omega

theorem parseRegistration_encodeRegistration (asNull : Bool) (row : Registration)
    (fuel : Nat) (rest : List Char) (h : row.RequiredServices.length + 5 ≤ fuel) :
    parseRegistration fuel (encodeRegistration asNull row ++ rest) = some (row, rest) := by
  obtain ⟨f, rfl⟩ : ∃ f, fuel = f + 5 := ⟨fuel - 5, by omega⟩
  have hmembers : parseMembers (f + 5) zeroRegistration
      (encodeString "ServiceName" ++ ':' :: (encodeString row.ServiceName
        ++ ',' :: (encodeString "ServiceURL" ++ ':' :: (encodeString row.ServiceURL
        ++ ',' :: (encodeString "RequiredServices" ++ ':'
          :: (encodeNames asNull row.RequiredServices
        ++ ',' :: (encodeString "ServiceUpdateURL" ++ ':'
          :: (encodeString row.ServiceUpdateURL
        ++ ',' :: (encodeString "HeartbeatURL" ++ ':' :: (encodeString row.HeartbeatURL
        ++ Char.ofNat 125 :: rest))))))))))
      = some (row, rest) := by
    rw [parseMembers_next (f + 4) _ _ _ _ _ (parseField_ServiceName _ _ _ _),
      parseMembers_next (f + 3) _ _ _ _ _ (parseField_ServiceURL _ _ _ _),
      parseMembers_next (f + 2) _ _ _ _ _
        (parseField_RequiredServices _ _ _ _ _ (by omega)),
      parseMembers_next (f + 1) _ _ _ _ _ (parseField_ServiceUpdateURL _ _ _ _),
      parseMembers_last f _ _ _ _ _ (parseField_HeartbeatURL _ _ _ _)]
  obtain ⟨tail, ht⟩ : ∃ tail, encodeString "ServiceName" ++ ':' :: (encodeString row.ServiceName
        ++ ',' :: (encodeString "ServiceURL" ++ ':' :: (encodeString row.ServiceURL
        ++ ',' :: (encodeString "RequiredServices" ++ ':'
          :: (encodeNames asNull row.RequiredServices
        ++ ',' :: (encodeString "ServiceUpdateURL" ++ ':'
          :: (encodeString row.ServiceUpdateURL
        ++ ',' :: (encodeString "HeartbeatURL" ++ ':' :: (encodeString row.HeartbeatURL
        ++ Char.ofNat 125 :: rest))))))))) = Char.ofNat 34 :: tail := ⟨_, rfl⟩
  rw [ht] at hmembers
  have htext : encodeRegistration asNull row ++ rest
      = Char.ofNat 123 :: Char.ofNat 34 :: tail := by
    rw [← ht]
    simp only [encodeRegistration, List.append_assoc, List.cons_append, List.nil_append,
      List.singleton_append]
  rw [htext]
  simp [parseRegistration, skipSpace, null_data, expectText, hmembers]

theorem encodeRegistration_head (asNull : Bool) (row : Registration) (rest : List Char) :
    ∃ tail, encodeRegistration asNull row ++ rest = Char.ofNat 123 :: tail :=
  ⟨_, rfl⟩

theorem parseRowList_join (asNull : Nat → Bool) (rows : List Registration) :
    ∀ (fuel k : Nat) (rest : List Char), rows ≠ [] →
      (joinComma (encodeRows asNull k rows)).length ≤ fuel →
      parseRowList fuel (joinComma (encodeRows asNull k rows) ++ ']' :: rest)
        = some (rows, rest) := by
  induction rows with
  | nil => intro fuel k rest h; exact absurd rfl h
  | cons row more ih =>
    intro fuel k rest _ hfuel
    have hrow := encodeRegistration_length (asNull k) row
    cases more with
    | nil =>
      simp only [encodeRows, joinComma] at hfuel ⊢
      obtain ⟨f, rfl⟩ : ∃ f, fuel = f + 1 := ⟨fuel - 1, by omega⟩
      rw [parseRowList, parseRegistration_encodeRegistration _ _ _ _ (by omega)]
      simp [skipSpace]
    | cons row2 more2 =>
      simp only [encodeRows, joinComma, List.length_append, List.length_cons] at hfuel
      obtain ⟨f, rfl⟩ : ∃ f, fuel = f + 1 := ⟨fuel - 1, by omega⟩
      have hrec := ih f (k + 1) rest (by simp)
        (by simp only [encodeRows]; omega)
      simp only [encodeRows] at hrec
      simp only [encodeRows, joinComma, List.append_assoc, List.cons_append]
      rw [parseRowList, parseRegistration_encodeRegistration _ _ _ _ (by omega)]
      simp [skipSpace, hrec]

theorem decodeTable_encodeTable (asNull : Nat → Bool) (rows : List Registration) :
    decodeTable (encodeTable asNull rows) = some rows := by
  cases rows with
  | nil =>
    simp [decodeTable, encodeTable, encodeRows, joinComma, skipSpace, null_data, expectText]
  | cons row more =>
    have hjoin := parseRowList_join asNull (row :: more)
      (encodeTable asNull (row :: more)).length 0 [Char.ofNat 10] (by simp)
      (by simp only [encodeTable, String.length, List.length_cons, List.length_append]; omega)
    obtain ⟨tail, ht⟩ : ∃ tail,
        joinComma (encodeRows asNull 0 (row :: more)) ++ [']', Char.ofNat 10]
          = Char.ofNat 123 :: tail := by
      cases more with
      | nil => exact ⟨_, rfl⟩
      | cons row2 more2 => exact ⟨_, rfl⟩
    have hdata : (encodeTable asNull (row :: more)).data = '[' :: Char.ofNat 123 :: tail := by
      simp [encodeTable, ← ht]
    rw [ht] at hjoin
    unfold decodeTable
    rw [hdata]
    simp [skipSpace, null_data, expectText, hjoin]

/-! ## Lemmas on the rounds of the failure detector -/

theorem getElem?_append_cons_length (before after : List Registration) (g : Registration) :
    (before ++ g :: after)[before.length]? = some g := by
  induction before with
  | nil => simp
  | cons row rest ih => simpa using ih

theorem stepGoroutine_outside (send : patch → String → Option String)
    (saveErr : Option String) (probe : Nat → Nat → Probe) (rows : List Registration)
    (st : RoundState) (i : Nat) (h : rows.length ≤ i) :
    stepGoroutine send saveErr probe rows st i = st := by
  have hnone : rows[i]? = none := List.getElem?_eq_none h
  unfold stepGoroutine
  split
  · rfl
  · simp [hnone]

theorem stepGoroutine_other (send : patch → String → Option String)
    (saveErr : Option String) (probe : Nat → Nat → Probe) (before after : List Registration)
    (g : Registration) (ph : Nat) (st : RoundState) (i : Nat)
    (hothers : ∀ j, j ≠ before.length → (probe j 0).passed = true)
    (hinv : onFailingPath send before after g ph st)
    (hi : i ≠ before.length) (hlt : i < (before ++ g :: after).length) :
    onFailingPath send before after g ph
        (stepGoroutine send saveErr probe (before ++ g :: after) st i) ∧
      (stepGoroutine send saveErr probe (before ++ g :: after) st i).pcs i = .done ∧
      ∀ j, j ≠ i →
        (stepGoroutine send saveErr probe (before ++ g :: after) st i).pcs j = st.pcs j := by
  obtain ⟨hc, hg, hreg, hpush, hrest⟩ := hinv
  obtain ⟨row, hrow⟩ : ∃ row, (before ++ g :: after)[i]? = some row :=
    ⟨_, List.getElem?_eq_getElem hlt⟩
  rcases hrest i hi with hpc | hpc
  · have hstep : stepGoroutine send saveErr probe (before ++ g :: after) st i
        = st.goto i .done := by
      simp [stepGoroutine, hc, hrow, hpc, hothers i hi]
    rw [hstep]
    refine ⟨⟨hc, ?_, hreg, hpush, ?_⟩, ?_, ?_⟩
    · simp [RoundState.goto, Ne.symm hi, hg]
    · intro j hj
      by_cases hji : j = i
      · right; simp [RoundState.goto, hji]
      · simpa [RoundState.goto, hji] using hrest j hj
    · simp [RoundState.goto]
    · intro j hj
      simp [RoundState.goto, hj]
  · have hstep : stepGoroutine send saveErr probe (before ++ g :: after) st i = st := by
      simp [stepGoroutine, hc, hrow, hpc]
    rw [hstep]
    exact ⟨⟨hc, hg, hreg, hpush, hrest⟩, hpc, fun _ _ => rfl⟩

theorem stepGoroutine_self (send : patch → String → Option String)
    (saveErr : Option String) (probe : Nat → Nat → Probe) (before after : List Registration)
    (g : Registration) (ph : Nat) (st : RoundState)
    (hfail : ∀ k, k < 3 → (probe before.length k).passed = false)
    (hbefore : ∀ row ∈ before, row.ServiceURL ≠ g.ServiceURL)
    (hinv : onFailingPath send before after g ph st) (hph : ph ≤ 5) :
    onFailingPath send before after g (min 5 (ph + 1))
        (stepGoroutine send saveErr probe (before ++ g :: after) st before.length) ∧
      ∀ j, j ≠ before.length →
        (stepGoroutine send saveErr probe (before ++ g :: after) st before.length).pcs j
          = st.pcs j := by
  obtain ⟨hc, hg, hreg, hpush, hrest⟩ := hinv
  have hrow := getElem?_append_cons_length before after g
  have hfind := findURL_append_cons g.ServiceURL before after g rfl hbefore
  have h0 := hfail 0 (by decide)
  have h1 := hfail 1 (by decide)
  have h2 := hfail 2 (by decide)
  obtain rfl | rfl | rfl | rfl | rfl | rfl :
      ph = 0 ∨ ph = 1 ∨ ph = 2 ∨ ph = 3 ∨ ph = 4 ∨ ph = 5 := by omega
  · simp only [failingPath] at hg
    simp only [Nat.zero_le, if_true] at hreg hpush
    have hstep : stepGoroutine send saveErr probe (before ++ g :: after) st before.length
        = st.goto before.length (.found before.length 0) := by
      simp [stepGoroutine, hc, hrow, hg, h0, hreg, hfind]
    rw [hstep]
    refine ⟨⟨hc, ?_, ?_, ?_, ?_⟩, ?_⟩
    · simp [RoundState.goto, failingPath]
    · simpa [RoundState.goto] using hreg
    · simpa [RoundState.goto] using hpush
    · intro j hj
      simpa [RoundState.goto, hj] using hrest j hj
    · intro j hj
      simp [RoundState.goto, hj]
  · simp only [failingPath] at hg
    simp only [Nat.one_le_ofNat, if_true, Nat.le_refl] at hreg hpush
    have hstep : stepGoroutine send saveErr probe (before ++ g :: after) st before.length
        = { (st.goto before.length (.notified before.length 0)) with
            pushes := (before ++ g :: after).flatMap
              (notifyTask send ⟨[], [⟨g.ServiceName, g.ServiceURL⟩]⟩) } := by
      simp [stepGoroutine, hc, hrow, hg, hreg, notify, hpush]
    rw [hstep]
    refine ⟨⟨hc, ?_, ?_, ?_, ?_⟩, ?_⟩
    · simp [RoundState.goto, failingPath]
    · simpa [RoundState.goto] using hreg
    · simp
    · intro j hj
      simpa [RoundState.goto, hj] using hrest j hj
    · intro j hj
      simp [RoundState.goto, hj]
  · simp only [failingPath] at hg
    simp only [Nat.le_refl, if_true] at hreg
    simp only [show ¬ (2 ≤ 1) by decide, if_false] at hpush
    have hstep : stepGoroutine send saveErr probe (before ++ g :: after) st before.length
        = { (st.goto before.length (.probing 1 false)) with
            reg := ⟨before ++ after, false⟩ } := by
      simp [stepGoroutine, hc, hrow, hg, hreg, nextAttempt]
    rw [hstep]
    refine ⟨⟨hc, ?_, ?_, ?_, ?_⟩, ?_⟩
    · simp [RoundState.goto, failingPath]
    · simp
    · simpa [RoundState.goto] using hpush
    · intro j hj
      simpa [RoundState.goto, hj] using hrest j hj
    · intro j hj
      simp [RoundState.goto, hj]
  · simp only [failingPath] at hg
    simp only [show ¬ (3 ≤ 2) by decide, show ¬ (3 ≤ 1) by decide, if_false] at hreg hpush
    have hstep : stepGoroutine send saveErr probe (before ++ g :: after) st before.length
        = st.goto before.length (.probing 2 false) := by
      simp [stepGoroutine, hc, hrow, hg, h1, nextAttempt]
    rw [hstep]
    refine ⟨⟨hc, ?_, ?_, ?_, ?_⟩, ?_⟩
    · simp [RoundState.goto, failingPath]
    · simpa [RoundState.goto] using hreg
    · simpa [RoundState.goto] using hpush
    · intro j hj
      simpa [RoundState.goto, hj] using hrest j hj
    · intro j hj
      simp [RoundState.goto, hj]
  · simp only [failingPath] at hg
    simp only [show ¬ (4 ≤ 2) by decide, show ¬ (4 ≤ 1) by decide, if_false] at hreg hpush
    have hstep : stepGoroutine send saveErr probe (before ++ g :: after) st before.length
        = st.goto before.length .done := by
      simp [stepGoroutine, hc, hrow, hg, h2, nextAttempt]
    rw [hstep]
    refine ⟨⟨hc, ?_, ?_, ?_, ?_⟩, ?_⟩
    · simp [RoundState.goto, failingPath]
    · simpa [RoundState.goto] using hreg
    · simpa [RoundState.goto] using hpush
    · intro j hj
      simpa [RoundState.goto, hj] using hrest j hj
    · intro j hj
      simp [RoundState.goto, hj]
  · simp only [failingPath] at hg
    have hstep : stepGoroutine send saveErr probe (before ++ g :: after) st before.length
        = st := by
      simp [stepGoroutine, hc, hrow, hg]
    rw [hstep]
    exact ⟨⟨hc, by simpa [failingPath] using hg, hreg, hpush, hrest⟩, fun _ _ => rfl⟩

theorem failingPath_done (G ph : Nat) (hph : ph ≤ 5) (h : failingPath G ph = .done) :
    ph = 5 := by
  obtain rfl | rfl | rfl | rfl | rfl | rfl :
      ph = 0 ∨ ph = 1 ∨ ph = 2 ∨ ph = 3 ∨ ph = 4 ∨ ph = 5 := by omega
  all_goals first | rfl | simp [failingPath] at h

theorem round_follows_failing_path (send : patch → String → Option String)
    (saveErr : Option String) (probe : Nat → Nat → Probe) (before after : List Registration)
    (g : Registration)
    (hfail : ∀ k, k < 3 → (probe before.length k).passed = false)
    (hothers : ∀ j, j ≠ before.length → (probe j 0).passed = true)
    (hbefore : ∀ row ∈ before, row.ServiceURL ≠ g.ServiceURL) (sched : List Nat) :
    ∀ (st : RoundState) (ph : Nat), ph ≤ 5 → onFailingPath send before after g ph st →
      onFailingPath send before after g (min 5 (ph + sched.count before.length))
          (sched.foldl (stepGoroutine send saveErr probe (before ++ g :: after)) st) ∧
        ∀ i, i ≠ before.length → i < (before ++ g :: after).length →
          (st.pcs i = .done ∨ 0 < sched.count i) →
          (sched.foldl (stepGoroutine send saveErr probe (before ++ g :: after)) st).pcs i
            = .done := by
  induction sched with
  | nil =>
    intro st ph hph hinv
    refine ⟨by simpa [Nat.min_eq_right hph] using hinv, ?_⟩
    intro i _ _ h
    simpa using h
  | cons a rest ih =>
    intro st ph hph hinv
    simp only [List.foldl_cons]
    by_cases ha : a = before.length
    · subst ha
      obtain ⟨hinv1, hsame⟩ := stepGoroutine_self send saveErr probe before after g ph st
        hfail hbefore hinv hph
      obtain ⟨h1, h2⟩ := ih _ (min 5 (ph + 1)) (Nat.min_le_left _ _) hinv1
      refine ⟨?_, ?_⟩
      · have hcount : min 5 (min 5 (ph + 1) + rest.count before.length)
            = min 5 (ph + (before.length :: rest).count before.length) := by
          simp only [List.count_cons_self]
          omega
        rw [← hcount]; exact h1
      · intro i hi hlt h
        apply h2 i hi hlt
        rw [hsame i hi]
        rcases h with h | h
        · exact Or.inl h
        · right
          simpa [List.count_cons, Ne.symm hi] using h
    · by_cases hlt : a < (before ++ g :: after).length
      · obtain ⟨hinv1, hdone, hsame⟩ := stepGoroutine_other send saveErr probe before after
          g ph st a hothers hinv ha hlt
        obtain ⟨h1, h2⟩ := ih _ ph hph hinv1
        refine ⟨?_, ?_⟩
        · simpa [List.count_cons, ha] using h1
        · intro i hi hilt h
          apply h2 i hi hilt
          by_cases hia : i = a
          · left; rw [hia]; exact hdone
          · rw [hsame i hia]
            rcases h with h | h
            · exact Or.inl h
            · right
              have hai : ¬ a = i := fun e => hia e.symm
              simpa [List.count_cons, hai] using h
      · rw [stepGoroutine_outside send saveErr probe _ st a (by omega)]
        obtain ⟨h1, h2⟩ := ih st ph hph hinv
        refine ⟨?_, ?_⟩
        · simpa [List.count_cons, ha] using h1
        · intro i hi hilt h
          apply h2 i hi hilt
          rcases h with h | h
          · exact Or.inl h
          · right
            have hai : ¬ a = i := by omega
            simpa [List.count_cons, hai] using h

theorem startRound_onFailingPath (send : patch → String → Option String)
    (before after : List Registration) (g : Registration) :
    onFailingPath send before after g 0 (startRound ⟨before ++ g :: after, false⟩) := by
  refine ⟨rfl, rfl, ?_, ?_, ?_⟩
  · simp [startRound]
  · simp [startRound]
  · intro i _; left; rfl

/-! ## Claims -/

/-- C1, as the code has it: starting from the empty table, after every prefix of a
sequence of `add` and `remove` calls in which each `add` registers a URL that no row has
at that moment, no two rows of the table have the same `ServiceURL`. -/
theorem distinct_urls_when_adds_are_fresh (send : patch → String → Option String)
    (ops : List Op) (k : Nat) (h : freshAdds send ops reg = true) :
    ((run send (ops.take k) reg).registrations.map (·.ServiceURL)).Nodup :=
  run_keeps_urls_distinct send ops reg k (by simp [reg]) h

/-- Witness of C1: a log service is added, removed and added again. -/
theorem distinct_urls_when_adds_are_fresh_witness :
    freshAdds allDelivered [.add logRow none, .remove "http://h:4000", .add logRow none] reg
        = true ∧
      ((run allDelivered
          ([Op.add logRow none, .remove "http://h:4000", .add logRow none].take 3)
          reg).registrations.map (·.ServiceURL)).Nodup :=
  ⟨by decide, distinct_urls_when_adds_are_fresh allDelivered _ 3 (by decide)⟩

/-- C1 fails as stated: `add` appends without looking at the table, so two `add`s with
the same `ServiceURL` leave two rows with that URL. -/
theorem add_twice_same_url_gives_two_rows :
    (run allDelivered [.add logRow none, .add { logRow with ServiceName := "Other" } none]
        reg).registrations
      = [logRow, { logRow with ServiceName := "Other" }] ∧
    ¬ ((run allDelivered [.add logRow none, .add { logRow with ServiceName := "Other" } none]
        reg).registrations.map (·.ServiceURL)).Nodup := by
  decide

/-- C2, as the code has it: `Update` with `Added = [(name, url)]` appends `url` to the
list of `name` whether or not it is already there and leaves the other names alone; a
second application appends `url` once more. -/
theorem added_entry_is_appended_each_time (p : providers) (name : ServiceName) (url : String)
    (n : ServiceName) :
    (p.Update ⟨[⟨name, url⟩], []⟩).services n =
        (if n = name then some ((p.services name).getD [] ++ [url]) else p.services n) ∧
    ((p.Update ⟨[⟨name, url⟩], []⟩).Update ⟨[⟨name, url⟩], []⟩).services n =
        (if n = name then some ((p.services name).getD [] ++ [url] ++ [url])
         else p.services n) := by
  by_cases hn : n = name <;>
    simp [providers.Update, addEntry_services, hn]

/-- C2 fails as stated: on the empty cache, applying the same `Added` entry twice gives
a list that holds the URL twice, applying it once gives a list that holds it once. -/
theorem added_twice_differs_from_once :
    ((prov.Update ⟨[⟨"LogService", "http://h:4000"⟩], []⟩).Update
        ⟨[⟨"LogService", "http://h:4000"⟩], []⟩).services "LogService"
      = some ["http://h:4000", "http://h:4000"] ∧
    (prov.Update ⟨[⟨"LogService", "http://h:4000"⟩], []⟩).services "LogService"
      = some ["http://h:4000"] := by
  decide

/-- C3, at the failing input: after an `Added` and a `Removed` entry for the same
provider the list of `LogService` is empty, and `get` then indexes an empty slice and
panics, whatever the random draw; a name with no key gets the error. -/
theorem get_panics_on_emptied_list (idx : Nat) :
    ((prov.Update ⟨[⟨"LogService", "http://h:4000"⟩], []⟩).Update
        ⟨[], [⟨"LogService", "http://h:4000"⟩]⟩).services "LogService" = some [] ∧
    ((prov.Update ⟨[⟨"LogService", "http://h:4000"⟩], []⟩).Update
        ⟨[], [⟨"LogService", "http://h:4000"⟩]⟩).get idx "LogService" = .panic ∧
    prov.get idx "LogService" = .error "no providers registered for LogService" := by
  have h : ((prov.Update ⟨[⟨"LogService", "http://h:4000"⟩], []⟩).Update
      ⟨[], [⟨"LogService", "http://h:4000"⟩]⟩).services "LogService" = some [] := by decide
  exact ⟨h, get_of_empty_list idx _ _ h, rfl⟩

/-- C4, at the failing input: the list of `S` holds `a` twice; `Update` with
`Removed = [(S, a)]` leaves `[c, d, d]`, while deleting the first `a` gives `[c, a, d]`. -/
theorem removed_entry_with_repeated_url :
    (prov.Update ⟨[⟨"S", "a"⟩, ⟨"S", "c"⟩, ⟨"S", "a"⟩, ⟨"S", "d"⟩], []⟩).services "S"
      = some ["a", "c", "a", "d"] ∧
    ((prov.Update ⟨[⟨"S", "a"⟩, ⟨"S", "c"⟩, ⟨"S", "a"⟩, ⟨"S", "d"⟩], []⟩).Update
        ⟨[], [⟨"S", "a"⟩]⟩).services "S" = some ["c", "d", "d"] ∧
    ["a", "c", "a", "d"].erase "a" = ["c", "a", "d"] := by
  decide

/-- C5: when `name` has no providers (no key, or an empty list), an `Added` entry
followed by a `Removed` entry for the same `(name, url)`, in two patches or in one,
leaves the key `name` present with the empty list; and no `Update` removes a key. -/
theorem added_then_removed_leaves_empty_list (p : providers) (name : ServiceName)
    (url : String) (h : p.services name = none ∨ p.services name = some []) :
    ((p.Update ⟨[⟨name, url⟩], []⟩).Update ⟨[], [⟨name, url⟩]⟩).services name = some [] ∧
    (p.Update ⟨[⟨name, url⟩], [⟨name, url⟩]⟩).services name = some [] ∧
    ∀ (q : providers) (pat : patch) (k : ServiceName),
      (q.services k).isSome = true → ((q.Update pat).services k).isSome = true := by
  have hd : (p.services name).getD [] = [] := by
    rcases h with h | h <;> simp [h]
  have key : (removeEntry (addEntry p ⟨name, url⟩) ⟨name, url⟩).services name = some [] := by
    have h1 : (addEntry p ⟨name, url⟩).services name = some [url] := by
      simp [addEntry_services, hd]
    simp [removeEntry, h1, providers.set, removeScan]
  exact ⟨by simpa [providers.Update] using key, by simpa [providers.Update] using key,
    Update_keeps_keys⟩

/-- Witness of C5: the empty cache has no key `LogService`. -/
theorem added_then_removed_leaves_empty_list_witness :
    (prov.services "LogService" = none ∨ prov.services "LogService" = some []) ∧
    ((prov.Update ⟨[⟨"LogService", "http://h:4000"⟩], []⟩).Update
        ⟨[], [⟨"LogService", "http://h:4000"⟩]⟩).services "LogService" = some [] :=
  ⟨Or.inl rfl,
    (added_then_removed_leaves_empty_list prov "LogService" "http://h:4000" (Or.inl rfl)).1⟩

/-- C6: `remove` of a URL that no row has returns the not-found error and leaves the
table, rows and order, as it was; nothing is pushed. -/
theorem remove_unknown_url_fails (send : patch → String → Option String) (r : registry)
    (url : String) (h : ∀ row ∈ r.registrations, row.ServiceURL ≠ url) :
    remove send r url =
      { reg := r, pushes := [],
        ret := .returned (some ("service at URL " ++ url ++ " not found")) } :=
  remove_unknown_url_missing send r url h

/-- Witness of C6: the table holds the log service only, and another URL is removed. -/
theorem remove_unknown_url_fails_witness :
    (∀ row ∈ (registry.mk [logRow] false).registrations, row.ServiceURL ≠ "http://h:9999") ∧
    remove allDelivered (registry.mk [logRow] false) "http://h:9999" =
      { reg := registry.mk [logRow] false, pushes := [],
        ret := .returned (some ("service at URL " ++ "http://h:9999" ++ " not found")) } :=
  ⟨by decide, remove_unknown_url_fails allDelivered _ _ (by decide)⟩

/-- C7, as the code has it: on a table whose lock is free, for a row `g` whose
`RequiredServices` names no service twice and with all pushes succeeding, the goroutine
that `notify` starts for `g` pushes only to `g.ServiceUpdateURL`; its patches, taken
together, hold exactly the `Added` entries and exactly the `Removed` entries of the full
patch whose `Name` is in `g.RequiredServices`, each as often as the full patch has it;
and it pushes nothing when no entry has such a name. -/
theorem notify_pushes_filtered_entries (rows : List Registration) (fullPatch : patch)
    (g : Registration) (hg : g ∈ rows) (hnd : g.RequiredServices.Nodup) :
    (∃ before after : List Registration, rows = before ++ g :: after ∧
      notify allDelivered ⟨rows, false⟩ fullPatch =
        some (before.flatMap (notifyTask allDelivered fullPatch)
          ++ notifyTask allDelivered fullPatch g
          ++ after.flatMap (notifyTask allDelivered fullPatch))) ∧
    (∀ q ∈ notifyTask allDelivered fullPatch g, q.url = g.ServiceUpdateURL) ∧
    ((notifyTask allDelivered fullPatch g).flatMap (fun q => q.body.Added)).Perm
      (fullPatch.Added.filter (fun e => e.Name ∈ g.RequiredServices)) ∧
    ((notifyTask allDelivered fullPatch g).flatMap (fun q => q.body.Removed)).Perm
      (fullPatch.Removed.filter (fun e => e.Name ∈ g.RequiredServices)) ∧
    ((∀ e ∈ fullPatch.Added ++ fullPatch.Removed, e.Name ∉ g.RequiredServices) →
      notifyTask allDelivered fullPatch g = []) := by
  refine ⟨notify_split allDelivered fullPatch rows g hg, ?_, ?_, ?_, ?_⟩
  · exact notifyLoop_url allDelivered fullPatch _ _
  · unfold notifyTask
    rw [notifyLoop_added]
    exact flatMap_filter_perm _ _ hnd
  · unfold notifyTask
    rw [notifyLoop_removed]
    exact flatMap_filter_perm _ _ hnd
  · intro h
    exact notifyLoop_nil_of_no_match allDelivered fullPatch _ _ h

/-- Witness of C7: the grading service requires the log service, whose arrival is
notified. -/
theorem notify_pushes_filtered_entries_witness :
    gradingRow ∈ [logRow, gradingRow] ∧ gradingRow.RequiredServices.Nodup ∧
    ((notifyTask allDelivered ⟨[⟨"LogService", "http://h:4000"⟩], []⟩ gradingRow).flatMap
        (fun q => q.body.Added)).Perm
      ((patch.mk [⟨"LogService", "http://h:4000"⟩] []).Added.filter
        (fun e => e.Name ∈ gradingRow.RequiredServices)) :=
  ⟨by decide, by decide,
    (notify_pushes_filtered_entries [logRow, gradingRow]
      ⟨[⟨"LogService", "http://h:4000"⟩], []⟩ gradingRow (by decide) (by decide)).2.2.1⟩

/-- C7 fails as stated: a row that lists `LogService` twice is pushed the one `Added`
entry of the full patch twice, in two patches. -/
theorem notify_repeats_entry_for_repeated_requirement :
    notify allDelivered ⟨[gradingTwiceRow], false⟩ ⟨[⟨"LogService", "http://h:4000"⟩], []⟩
      = some [⟨"http://h:6000/services", ⟨[⟨"LogService", "http://h:4000"⟩], []⟩⟩,
              ⟨"http://h:6000/services", ⟨[⟨"LogService", "http://h:4000"⟩], []⟩⟩] ∧
    ((notifyTask allDelivered ⟨[⟨"LogService", "http://h:4000"⟩], []⟩
        gradingTwiceRow).flatMap (fun q => q.body.Added)).count
          ⟨"LogService", "http://h:4000"⟩ = 2 ∧
    ((patch.mk [⟨"LogService", "http://h:4000"⟩] []).Added.filter
        (fun e => e.Name ∈ gradingTwiceRow.RequiredServices)).count
          ⟨"LogService", "http://h:4000"⟩ = 1 := by
  decide

/-- C8, as the code has it: on a table whose lock is free and when the snapshot write
succeeds, `add` of `R` pushes through `sendRequiredServices` exactly one patch to
`R.ServiceUpdateURL`, before the pushes of `notify`; its `Removed` is empty and its
`Added` holds, in the order of the table with `R` appended, the entry of each row once
per occurrence of the row's `ServiceName` in `R.RequiredServices` (so once per required
row when no name is listed twice) and nothing else. Registering the log service and then
the grading service and applying the pushes to the empty cache of the grading service
leaves `LogService -> [http://h:4000]` and no other key. -/
theorem add_pushes_known_providers (send : patch → String → Option String)
    (table : List Registration) (R : Registration) :
    (∃ pushed : List Push,
      notify send ⟨table ++ [R], false⟩ ⟨[⟨R.ServiceName, R.ServiceURL⟩], []⟩ = some pushed ∧
      add send none ⟨table, false⟩ R =
        { reg := ⟨table ++ [R], false⟩,
          pushes :=
            ⟨R.ServiceUpdateURL, ⟨requiredEntries R.RequiredServices (table ++ [R]), []⟩⟩
              :: pushed,
          ret := .returned
            (send ⟨requiredEntries R.RequiredServices (table ++ [R]), []⟩
              R.ServiceUpdateURL) }) ∧
    requiredEntries R.RequiredServices (table ++ [R]) =
      (table ++ [R]).flatMap (fun row =>
        List.replicate (R.RequiredServices.count row.ServiceName)
          (patchEntry.mk row.ServiceName row.ServiceURL)) ∧
    (R.RequiredServices.Nodup →
      requiredEntries R.RequiredServices (table ++ [R]) =
        ((table ++ [R]).filter (fun row => row.ServiceName ∈ R.RequiredServices)).map
          (fun row => patchEntry.mk row.ServiceName row.ServiceURL)) ∧
    (∀ n : ServiceName,
      (deliver prov gradingRow.ServiceUpdateURL
        ((add allDelivered none reg logRow).pushes ++
          (add allDelivered none (add allDelivered none reg logRow).reg
            gradingRow).pushes)).services n
        = if n = "LogService" then some ["http://h:4000"] else none) := by
  refine ⟨?_, requiredEntries_eq _ _, requiredEntries_nodup _ _, ?_⟩
  · refine ⟨_, rfl, ?_⟩
    simp [add, sendRequiredServices, notify]
  · intro n
    have hp : ((add allDelivered none reg logRow).pushes ++
          (add allDelivered none (add allDelivered none reg logRow).reg
            gradingRow).pushes).filter (fun q => q.url = gradingRow.ServiceUpdateURL)
        = [⟨"http://h:6000/services", ⟨[⟨"LogService", "http://h:4000"⟩], []⟩⟩] := by
      decide
    simp only [deliver, hp, List.foldl_cons, List.foldl_nil, providers.Update,
      addEntry_services]
    simp [prov]

/-- Witness of C8: the grading service, which lists the log service once, is added to
the table that holds the log service. -/
theorem add_pushes_known_providers_witness :
    gradingRow.RequiredServices.Nodup ∧
    requiredEntries gradingRow.RequiredServices ([logRow] ++ [gradingRow]) =
      (([logRow] ++ [gradingRow]).filter
          (fun row => row.ServiceName ∈ gradingRow.RequiredServices)).map
        (fun row => patchEntry.mk row.ServiceName row.ServiceURL) :=
  ⟨by decide, (add_pushes_known_providers allDelivered [logRow] gradingRow).2.2.1 (by decide)⟩

/-- C8 fails as stated: a new registration that lists `LogService` twice is pushed the
entry of the one log row twice, while the table has one row with a required name. -/
theorem add_repeats_entry_for_repeated_requirement :
    (add allDelivered none ⟨[logRow], false⟩ gradingTwiceRow).pushes
      = [⟨"http://h:6000/services",
          ⟨[⟨"LogService", "http://h:4000"⟩, ⟨"LogService", "http://h:4000"⟩], []⟩⟩] ∧
    (([logRow] ++ [gradingTwiceRow]).filter
        (fun row => row.ServiceName ∈ gradingTwiceRow.RequiredServices)).map
      (fun row => patchEntry.mk row.ServiceName row.ServiceURL)
      = [⟨"LogService", "http://h:4000"⟩] := by
  decide

/-- The goroutine of `g` run from start to end with no other goroutine in between: on a
table whose lock is free and in which `g` is the only row with its `ServiceURL`, three
failed probes make it call `remove` once and leave a table that has no row with
`g.ServiceURL` (the other rows kept in order); every row of the table, `g` included,
that lists `g.ServiceName` in its `RequiredServices` is pushed a patch with
`Removed = [(g.ServiceName, g.ServiceURL)]` and empty `Added`. -/
theorem failed_probes_remove_and_notify (send : patch → String → Option String)
    (saveErr : Option String) (probe : Nat → Probe) (before after : List Registration)
    (g : Registration)
    (hfail : ∀ k, k < 3 → probe k ≠ .status 200)
    (hbefore : ∀ row ∈ before, row.ServiceURL ≠ g.ServiceURL)
    (hafter : ∀ row ∈ after, row.ServiceURL ≠ g.ServiceURL) :
    (heartbeatTask send saveErr probe ⟨before ++ g :: after, false⟩ g).reg
      = ⟨before ++ after, false⟩ ∧
    (∀ row ∈ (heartbeatTask send saveErr probe ⟨before ++ g :: after, false⟩
        g).reg.registrations, row.ServiceURL ≠ g.ServiceURL) ∧
    (heartbeatTask send saveErr probe ⟨before ++ g :: after, false⟩ g).calls
      = [.remove g.ServiceURL] ∧
    (heartbeatTask send saveErr probe ⟨before ++ g :: after, false⟩ g).stuck = false ∧
    (∀ d ∈ before ++ g :: after, g.ServiceName ∈ d.RequiredServices →
      Push.mk d.ServiceUpdateURL ⟨[], [⟨g.ServiceName, g.ServiceURL⟩]⟩
        ∈ (heartbeatTask send saveErr probe ⟨before ++ g :: after, false⟩ g).pushes) := by
  have h0 := probe_not_passed (probe 0) (hfail 0 (by decide))
  have h1 := probe_not_passed (probe 1) (hfail 1 (by decide))
  have h2 := probe_not_passed (probe 2) (hfail 2 (by decide))
  have hrm := remove_only_row_with_url send before after g hbefore
  have hst : heartbeatTask send saveErr probe ⟨before ++ g :: after, false⟩ g =
      { reg := ⟨before ++ after, false⟩,
        pushes := (before ++ g :: after).flatMap
          (notifyTask send ⟨[], [⟨g.ServiceName, g.ServiceURL⟩]⟩),
        calls := [.remove g.ServiceURL], stuck := false } := by
    simp [heartbeatTask, heartbeatLoop, h0, h1, h2, hrm]
  rw [hst]
  refine ⟨rfl, ?_, rfl, rfl, ?_⟩
  · intro row hrow
    rcases List.mem_append.1 hrow with h | h
    · exact hbefore row h
    · exact hafter row h
  · intro d hd hreq
    simp only [List.mem_flatMap]
    exact ⟨d, hd, notifyLoop_removed_mem send ⟨g.ServiceName, g.ServiceURL⟩ _ _ hreq⟩

/-- An instance of the goroutine run on its own: the log service stops answering while
the grading service, which requires it, is registered. -/
theorem failed_probes_remove_and_notify_witness :
    (∀ k, k < 3 → (fun _ : Nat => Probe.failed "connection refused") k ≠ .status 200) ∧
    (∀ row ∈ ([] : List Registration), row.ServiceURL ≠ logRow.ServiceURL) ∧
    (∀ row ∈ [gradingRow], row.ServiceURL ≠ logRow.ServiceURL) ∧
    (heartbeatTask allDelivered none (fun _ => .failed "connection refused")
        ⟨[] ++ logRow :: [gradingRow], false⟩ logRow).reg = ⟨[] ++ [gradingRow], false⟩ :=
  ⟨by intro k _; simp, by simp, by decide,
    (failed_probes_remove_and_notify allDelivered none (fun _ => .failed "connection refused")
      [] [gradingRow] logRow (by intro k _; simp) (by simp) (by decide)).1⟩

/-- Run on its own, the goroutine of the first of two rows with the same `ServiceURL`
removes one row only, and the table still has a row with that URL. -/
theorem failed_probes_leave_second_row_with_url :
    (heartbeatTask allDelivered none (fun _ => .failed "connection refused")
        ⟨[logRow, logTwinRow], false⟩ logRow).reg.registrations = [logTwinRow] ∧
    logTwinRow.ServiceURL = logRow.ServiceURL := by
  decide

/-- C9, as the code has it: on a table whose lock is free and in which `g` is the only
row with its `ServiceURL`, take a round of the failure detector in which the three probes
of `g` fail and every other goroutine passes its first probe, so that no other goroutine
touches the table. Under every interleaving the round ends once the goroutine of `g` has
made its five steps and every other goroutine one; and when it has ended the table has
no row with `g.ServiceURL` (the other rows kept in order), and every row of the table at
the start, `g` included, that lists `g.ServiceName` in its `RequiredServices` has been
pushed a patch with `Removed = [(g.ServiceName, g.ServiceURL)]` and empty `Added`. -/
theorem failed_probes_round_removes_and_notifies (send : patch → String → Option String)
    (saveErr : Option String) (probe : Nat → Nat → Probe) (before after : List Registration)
    (g : Registration) (sched : List Nat)
    (hfail : ∀ k, k < 3 → (probe before.length k).passed = false)
    (hothers : ∀ j, j ≠ before.length → (probe j 0).passed = true)
    (hbefore : ∀ row ∈ before, row.ServiceURL ≠ g.ServiceURL)
    (hafter : ∀ row ∈ after, row.ServiceURL ≠ g.ServiceURL) :
    ((5 ≤ sched.count before.length ∧
        ∀ i, i < (before ++ g :: after).length → 1 ≤ sched.count i) →
      roundEnded (before ++ g :: after).length
        (heartbeatRound send saveErr probe sched ⟨before ++ g :: after, false⟩) = true) ∧
    (roundEnded (before ++ g :: after).length
        (heartbeatRound send saveErr probe sched ⟨before ++ g :: after, false⟩) = true →
      (heartbeatRound send saveErr probe sched ⟨before ++ g :: after, false⟩).reg
        = ⟨before ++ after, false⟩ ∧
      (∀ row ∈ (heartbeatRound send saveErr probe sched
          ⟨before ++ g :: after, false⟩).reg.registrations,
        row.ServiceURL ≠ g.ServiceURL) ∧
      (∀ d ∈ before ++ g :: after, g.ServiceName ∈ d.RequiredServices →
        Push.mk d.ServiceUpdateURL ⟨[], [⟨g.ServiceName, g.ServiceURL⟩]⟩
          ∈ (heartbeatRound send saveErr probe sched
              ⟨before ++ g :: after, false⟩).pushes)) := by
  obtain ⟨hinv, hdone⟩ := round_follows_failing_path send saveErr probe before after g
    hfail hothers hbefore sched (startRound ⟨before ++ g :: after, false⟩) 0 (by decide)
    (startRound_onFailingPath send before after g)
  have hG : before.length < (before ++ g :: after).length := by simp
  obtain ⟨hc, hpc, hreg, hpush, _⟩ := hinv
  constructor
  · rintro ⟨hcount, hall⟩
    have hph : min 5 (0 + sched.count before.length) = 5 := by omega
    rw [hph] at hpc
    simp only [roundEnded, heartbeatRound, hc, Bool.not_false, Bool.true_and,
      List.all_eq_true, List.mem_range, decide_eq_true_eq]
    intro i hi
    by_cases hiG : i = before.length
    · rw [hiG]; exact hpc
    · exact hdone i hiG hi (Or.inr (hall i hi))
  · intro hend
    simp only [roundEnded, heartbeatRound, Bool.and_eq_true, List.all_eq_true,
      List.mem_range, decide_eq_true_eq] at hend
    have hpcG := hend.2 before.length hG
    rw [hpc] at hpcG
    have hph := failingPath_done _ _ (Nat.min_le_left _ _) hpcG
    rw [hph] at hreg hpush
    simp only [show ¬ (5 ≤ 2) by decide, show ¬ (5 ≤ 1) by decide, if_false] at hreg hpush
    simp only [heartbeatRound]
    refine ⟨hreg, ?_, ?_⟩
    · rw [hreg]
      intro row hrow
      rcases List.mem_append.1 hrow with h | h
      · exact hbefore row h
      · exact hafter row h
    · intro d hd hreq
      rw [hpush]
      simp only [List.mem_flatMap]
      exact ⟨d, hd, notifyLoop_removed_mem send ⟨g.ServiceName, g.ServiceURL⟩ _ _ hreq⟩
/-- Witness of C9: the log service stops answering while the grading service, which
requires it and answers its probe, is registered. -/
theorem failed_probes_round_removes_and_notifies_witness :
    (∀ k, k < 3 → (firstFails ([] : List Registration).length k).passed = false) ∧
    (∀ j, j ≠ ([] : List Registration).length → (firstFails j 0).passed = true) ∧
    (∀ row ∈ ([] : List Registration), row.ServiceURL ≠ logRow.ServiceURL) ∧
    (∀ row ∈ [gradingRow], row.ServiceURL ≠ logRow.ServiceURL) ∧
    roundEnded ([] ++ logRow :: [gradingRow]).length
      (heartbeatRound allDelivered none firstFails [1, 0, 0, 0, 0, 0]
        ⟨[] ++ logRow :: [gradingRow], false⟩) = true ∧
    (heartbeatRound allDelivered none firstFails [1, 0, 0, 0, 0, 0]
        ⟨[] ++ logRow :: [gradingRow], false⟩).reg = ⟨[] ++ [gradingRow], false⟩ ∧
    Push.mk gradingRow.ServiceUpdateURL ⟨[], [⟨logRow.ServiceName, logRow.ServiceURL⟩]⟩
      ∈ (heartbeatRound allDelivered none firstFails [1, 0, 0, 0, 0, 0]
          ⟨[] ++ logRow :: [gradingRow], false⟩).pushes :=
  have hfail : ∀ k, k < 3 → (firstFails ([] : List Registration).length k).passed = false :=
    fun _ _ => rfl
  have hothers : ∀ j, j ≠ ([] : List Registration).length → (firstFails j 0).passed = true :=
    fun j hj => by
      have hj0 : j ≠ 0 := hj
      simp [firstFails, hj0, Probe.passed]
  have h := failed_probes_round_removes_and_notifies allDelivered none firstFails []
    [gradingRow] logRow [1, 0, 0, 0, 0, 0] hfail hothers (by simp) (by decide)
  have hend := h.1 ⟨by decide, by decide⟩
  ⟨hfail, hothers, by simp, by decide, hend, (h.2 hend).1,
    (h.2 hend).2.2 gradingRow (by simp) (by decide)⟩

/-- C9 fails as stated, in two ways. When a second row carries the same `ServiceURL` and
answers its own probe, the round in which the three probes of the first row fail ends
with that second row, and so with a row with that URL, still in the table. And when the
grading service, which requires the log service, fails in the same round and is removed
first, the round ends without any push to it: `notify` pushes to the rows that the table
holds at that moment. -/
theorem failed_probes_round_misses_row_or_dependent :
    (roundEnded 2
        (heartbeatRound allDelivered none firstFails [1, 0, 0, 0, 0, 0]
          ⟨[logRow, logTwinRow], false⟩) = true ∧
      (heartbeatRound allDelivered none firstFails [1, 0, 0, 0, 0, 0]
          ⟨[logRow, logTwinRow], false⟩).reg.registrations = [logTwinRow] ∧
      logTwinRow.ServiceURL = logRow.ServiceURL) ∧
    (roundEnded 2
        (heartbeatRound allDelivered none firstTwoFail [0, 0, 0, 0, 0, 1, 1, 1, 1, 1]
          ⟨[gradingRow, logRow], false⟩) = true ∧
      logRow.ServiceName ∈ gradingRow.RequiredServices ∧
      (heartbeatRound allDelivered none firstTwoFail [0, 0, 0, 0, 0, 1, 1, 1, 1, 1]
          ⟨[gradingRow, logRow], false⟩).pushes = []) := by
  decide

/-- Two rows fail in the same round and their `remove`s overlap: both scans come before
the first cut. On three rows the second cut, at the index found before the first cut,
takes out the healthy third row and leaves the failed second row; on two rows it is out
of range and the goroutine panics. When one `remove` ends before the other starts, both
failed rows are taken out. -/
theorem overlapping_removes_cut_wrong_row :
    (heartbeatRound allDelivered none firstTwoFail [0, 1, 0, 0, 1, 1, 0, 0, 1, 1, 2]
        ⟨[haltedRow, logRow, healthyRow], false⟩).reg.registrations = [logRow] ∧
    roundEnded 3
      (heartbeatRound allDelivered none firstTwoFail [0, 1, 0, 0, 1, 1, 0, 0, 1, 1, 2]
        ⟨[haltedRow, logRow, healthyRow], false⟩) = true ∧
    (heartbeatRound allDelivered none firstTwoFail [0, 1, 0, 0, 1]
        ⟨[haltedRow, logRow], false⟩).crashed = true ∧
    (heartbeatRound allDelivered none firstTwoFail [0, 0, 0, 0, 0, 1, 1, 1, 1, 1, 2]
        ⟨[haltedRow, logRow, healthyRow], false⟩).reg.registrations = [healthyRow] := by
  decide

/-- C10, at the failing input: on the table that holds the log service, a `DELETE` whose
body is a URL of no row ends the process through `log.Fatal` (no status is written) with
the table unchanged, and a `DELETE` of the registered URL answers 200 and removes the
row. -/
theorem delete_of_unknown_url_exits (send : patch → String → Option String)
    (saveErr : Option String) :
    ServeHTTP send saveErr ⟨[logRow], false⟩ ⟨"DELETE", none, some "http://h:9999"⟩
      = { reg := ⟨[logRow], false⟩, pushes := [], response := .exit } ∧
    ServeHTTP send saveErr ⟨[logRow], false⟩ ⟨"DELETE", none, some "http://h:4000"⟩
      = { reg := ⟨[], false⟩, pushes := [], response := .status 200 } := by
  constructor
  · have h := remove_unknown_url_missing send ⟨[logRow], false⟩ "http://h:9999" (by decide)
    simp [ServeHTTP, h]
  · have h := remove_only_row_with_url send [] [] logRow (by simp)
    have hu : logRow.ServiceURL = "http://h:4000" := rfl
    rw [hu] at h
    simp only [List.nil_append] at h
    simp only [ServeHTTP, h]
    simp [notifyTask, notifyLoop, logRow]

/-- C11: when `saveToFile` fails inside `add` of `R`, `add` returns that error, and the
table ends with `R` appended after the earlier rows, which are unchanged; nothing is
pushed. -/
theorem add_keeps_row_when_snapshot_fails (send : patch → String → Option String)
    (table : List Registration) (R : Registration) (e : String) :
    (add send (some e) ⟨table, false⟩ R).ret = .returned (some e) ∧
    (add send (some e) ⟨table, false⟩ R).reg.registrations = table ++ [R] ∧
    (add send (some e) ⟨table, false⟩ R).pushes = [] := by
  simp [add]

/-- C14, at the failing input: after an `add` whose `saveToFile` fails the exclusive lock
is still held, so a later `add` and a later `remove` of a registered URL wait for ever;
after an `add` whose `saveToFile` succeeds the lock is free. -/
theorem add_leaves_lock_held_when_snapshot_fails (send : patch → String → Option String)
    (saveErr : Option String) :
    (add send (some "open ./registry.json: permission denied") reg logRow).reg
      = ⟨[logRow], true⟩ ∧
    (add send saveErr
      (add send (some "open ./registry.json: permission denied") reg logRow).reg
      gradingRow).ret = .blocked ∧
    (remove send
      (add send (some "open ./registry.json: permission denied") reg logRow).reg
      "http://h:4000").ret = .blocked ∧
    (add send none reg logRow).reg = ⟨[logRow], false⟩ := by
  refine ⟨by simp [add, reg], by simp [add, reg], ?_, ?_⟩
  · simp [add, reg, remove, findURL, logRow, notify]
  · simp [add, reg, sendRequiredServices, notify]

/-- C12: when `saveToFile` succeeds on a table, `loadFromFile` of the file it wrote into
the empty table `reg` returns no error and gives the same rows in the same order, so
every field of every registration is equal; and `loadFromFile` with no snapshot file
returns no error and leaves the table empty. -/
theorem snapshot_round_trip (asNull : Nat → Bool) (rows : List Registration)
    (locked : Bool) (disk : Disk) (openErr : Option String) :
    (saveToFile none none asNull disk ⟨rows, locked⟩).2 = none ∧
    loadFromFile none (saveToFile none none asNull disk ⟨rows, locked⟩).1 reg
      = (⟨rows, false⟩, none) ∧
    loadFromFile openErr ⟨none⟩ reg = (reg, none) := by
  refine ⟨rfl, ?_, rfl⟩
  simp [saveToFile, loadFromFile, decodeTable_encodeTable, reg]

end Registry
